import Mathlib

/-!
Verification of the Sonic-Pixelator codec (`src/services/encoder.service.ts`).

The codec is shallowly embedded: byte buffers and pixel buffers are `List Nat`
(each entry a byte in `[0,255]`, enforced by hypotheses where it matters),
JavaScript 32-bit integer arithmetic is `Nat` arithmetic taken `% 2^32`,
fallible operations return `Except CodecError`.  Browser collaborators
(canvas image resampling, gzip decompression) are modelled as explicit
parameters: the resampled cover image is an arbitrary quantified pixel
buffer, and gzip decompression is an arbitrary `List Nat → Option (List Nat)`.
-/

namespace SonicPixelator

/-- `ceilDiv a b = ⌈a / b⌉` for natural numbers (used for the many
`Math.ceil(x / y)` expressions on integer operands in the source). -/
def ceilDiv (a b : Nat) : Nat := (a + b - 1) / b

/-- Upward search for the least `n ≥ start` with `c ≤ n * n`. -/
def ceilSqrtAux (c : Nat) : Nat → Nat → Nat
  | 0, n => n
  | fuel + 1, n => if c ≤ n * n then n else ceilSqrtAux c fuel (n + 1)

/-- Least `n` with `n * n ≥ c`; this is `Math.ceil(Math.sqrt c)` for a
natural-number argument `c`. -/
def ceilSqrtN (c : Nat) : Nat := ceilSqrtAux c c 0

/-- The low `w` bits of `n`, least-significant first — the bit lists the
encoder builds with `for(let b=0; b<w; b++) bits.push((n >> b) & 1)`. -/
def natBits (w n : Nat) : List Nat :=
  (List.range w).map fun b => (n >>> b) &&& 1

/-- Reassemble a least-significant-first bit list into a number (the inverse
of the decoder loop `val |= bit << b`). -/
def bitsToNat (bs : List Nat) : Nat :=
  bs.foldr (fun b acc => b + 2 * acc) 0

/-- `"SNIC"` — Standard Noise Image Content (raw payload magic). -/
def MAGIC_SNIC : List Nat := [0x53, 0x4E, 0x49, 0x43]

/-- `"SNIZ"` — Sonic Image Zip (legacy compressed payload magic). -/
def MAGIC_SNIZ : List Nat := [0x53, 0x4E, 0x49, 0x5A]

/-- `"SNIH"` — Sonic Hidden (stego header magic, written into pixel LSBs). -/
def MAGIC_SNIH : List Nat := [0x53, 0x4E, 0x49, 0x48]

/-- `RESERVED_HEADER_PIXELS = 32`: pixels reserved for the linear stego header. -/
def RESERVED_HEADER_PIXELS : Nat := 32

/-- `2^32`, the modulus of JavaScript's 32-bit integer operations. -/
def M32 : Nat := 4294967296

/-- One step of the seeded generator in `getShuffledIndices` (a mulberry32
variant).  JavaScript's `^`, `|`, `>>>` and `Math.imul` all reduce their
operands modulo `2^32`, so the whole step is computed on `Nat` modulo `2^32`;
the returned pair is `(random output in [0, 2^32), new seed)`, the source's
`random()` being the output divided by `4294967296`. -/
def mulberryNext (seed : Nat) : Nat × Nat :=
  let s := (seed + 0x6D2B79F5) % M32
  let t1 := ((s ^^^ (s >>> 15)) * (s ||| 1)) % M32
  let t2 := t1 ^^^ ((t1 + ((t1 ^^^ (t1 >>> 7)) * (t1 ||| 61)) % M32) % M32)
  (t2 ^^^ (t2 >>> 14), s)

/-- `(1337 ^ 0xDEADBEEF) >>> 0`, the fixed initial PRNG seed. -/
def SHUFFLE_SEED : Nat := 3735927766

/-- Swap of two list positions, as the source's three-assignment swap on a
`Uint32Array` (`temp = a[i]; a[i] = a[j]; a[j] = temp`). -/
def swapIdx (l : List Nat) (i j : Nat) : List Nat :=
  (l.set i (l.getD j 0)).set j (l.getD i 0)

/-- The Fisher–Yates loop `for (let i = count-1; i > 0; i--)`, with the loop
variable `i` as the recursion counter: `fisherYates arr seed i` runs the
body for `i, i-1, …, 1`. -/
def fisherYates : List Nat → Nat → Nat → List Nat
  | arr, _, 0 => arr
  | arr, seed, i + 1 =>
    let rs := mulberryNext seed
    let j := rs.1 * (i + 2) / M32
    fisherYates (swapIdx arr (i + 1) j) rs.2 i

/-- `getShuffledIndices(totalPixels, reservedPixels)`: the identity list
`[reserved, totalPixels)` shuffled by the fixed-seed Fisher–Yates loop.
This is the in-range core (`count = totalPixels - reservedPixels ≥ 0`);
for `totalPixels < reservedPixels` the source's
`new Uint32Array(count)` throws a `RangeError` with a negative count, which
is modeled as `typedArrayRangeError` at the decoder's call site
(`stegoExtract`). -/
def getShuffledIndices (totalPixels reservedPixels : Nat) : List Nat :=
  let count := totalPixels - reservedPixels
  fisherYates (List.range' reservedPixels count) SHUFFLE_SEED (count - 1)

theorem lt_M32_xor {a b : Nat} (ha : a < M32) (hb : b < M32) : a ^^^ b < M32 := by
  have h32 : M32 = 2 ^ 32 := by norm_num [M32]
  rw [h32] at ha hb ⊢
  exact Nat.xor_lt_two_pow ha hb

theorem lt_M32_mod (a : Nat) : a % M32 < M32 :=
  Nat.mod_lt _ (by norm_num [M32])

theorem lt_M32_shiftr {a : Nat} (k : Nat) (h : a < M32) : a >>> k < M32 := by
  rw [Nat.shiftRight_eq_div_pow]
  exact Nat.lt_of_le_of_lt (Nat.div_le_self _ _) h

theorem mulberryNext_fst_lt (seed : Nat) : (mulberryNext seed).1 < M32 := by
  rw [mulberryNext]
  simp only
  exact lt_M32_xor (lt_M32_xor (lt_M32_mod _) (lt_M32_mod _))
    (lt_M32_shiftr 14 (lt_M32_xor (lt_M32_mod _) (lt_M32_mod _)))

theorem swapIdx_length (l : List Nat) (i j : Nat) :
    (swapIdx l i j).length = l.length := by
  simp [swapIdx]

theorem swapIdx_perm (l : List Nat) (i j : Nat) (hi : i < l.length)
    (hj : j < l.length) : (swapIdx l i j).Perm l := by
  have hmi : l[i] ∈ l := List.getElem_mem hi
  have hmj : l[j] ∈ l := List.getElem_mem hj
  rw [List.perm_iff_count]
  intro a
  rw [swapIdx, List.getD_eq_getElem l 0 hj, List.getD_eq_getElem l 0 hi]
  have hj' : j < (l.set i l[j]).length := by simpa using hj
  rw [List.count_set _ _ _ _ hj', List.count_set _ _ _ _ hi]
  simp only [List.getElem_set, ite_self, beq_iff_eq]
  rcases eq_or_ne l[i] a with hia | hia <;> rcases eq_or_ne l[j] a with hja | hja
  · have h1 : 1 ≤ l.count a := List.count_pos_iff.2 (hia ▸ hmi)
    simp [hia, hja] <;> omega
  · have h1 : 1 ≤ l.count a := List.count_pos_iff.2 (hia ▸ hmi)
    simp [hia, hja] <;> omega
  · have h1 : 1 ≤ l.count a := List.count_pos_iff.2 (hja ▸ hmj)
    simp [hja, hia] <;> omega
  · simp [hia, hja] <;> omega

theorem fisherYates_perm (i : Nat) :
    ∀ (arr : List Nat) (seed : Nat), i < arr.length →
      (fisherYates arr seed i).Perm arr := by
  induction i with
  | zero => intro arr seed _; rw [fisherYates]
  | succ i ih =>
    intro arr seed h
    rw [fisherYates]
    have hr : (mulberryNext seed).1 < M32 := mulberryNext_fst_lt seed
    have hj : (mulberryNext seed).1 * (i + 2) / M32 < i + 2 := by
      apply Nat.div_lt_iff_lt_mul (by norm_num [M32]) |>.2
      calc (mulberryNext seed).1 * (i + 2) < M32 * (i + 2) :=
            (Nat.mul_lt_mul_right (by omega)).2 hr
        _ = (i + 2) * M32 := Nat.mul_comm _ _
    have hjlen : (mulberryNext seed).1 * (i + 2) / M32 < arr.length := by omega
    have hswap := swapIdx_perm arr (i + 1) ((mulberryNext seed).1 * (i + 2) / M32) h hjlen
    have hlen : i < (swapIdx arr (i + 1) ((mulberryNext seed).1 * (i + 2) / M32)).length := by
      rw [swapIdx_length]; omega
    exact (ih _ (mulberryNext seed).2 hlen).trans hswap

theorem getShuffledIndices_perm (N R : Nat) (h : R ≤ N) :
    (getShuffledIndices N R).Perm (List.range' R (N - R)) := by
  rw [getShuffledIndices]
  rcases Nat.eq_zero_or_pos (N - R) with h0 | hpos
  · rw [h0]
    rw [fisherYates]
  · exact fisherYates_perm _ _ _ (by rw [List.length_range']; omega)

/-- Claim C3: for every `totalPixels` `N` and reserved count `R` with `R ≤ N`,
`getShuffledIndices N R` returns a permutation of `[R, N)` with no repeated
element, and two calls with identical arguments return identical sequences. -/
theorem getShuffledIndices_perm_nodup_det (N R : Nat) (h : R ≤ N) :
    (getShuffledIndices N R).Perm (List.range' R (N - R)) ∧
    (getShuffledIndices N R).Nodup ∧
    getShuffledIndices N R = getShuffledIndices N R :=
  ⟨getShuffledIndices_perm N R h,
   (getShuffledIndices_perm N R h).symm.nodup (List.nodup_range' _ _), rfl⟩

/-- Witness for C3 at `(N, R) = (40, 32)`. -/
theorem getShuffledIndices_perm_nodup_det_witness :
    (getShuffledIndices 40 32).Perm (List.range' 32 8) ∧
    (getShuffledIndices 40 32).Nodup ∧
    getShuffledIndices 40 32 = getShuffledIndices 40 32 := by
  have := getShuffledIndices_perm_nodup_det 40 32 (by decide)
  simpa using this

/-- The four little-endian bytes `DataView.setUint32(0, n, true)` stores
(the value is reduced modulo `2^32`). -/
def u32le (n : Nat) : List Nat :=
  [n % 256, n / 256 % 256, n / 65536 % 256, n / 16777216 % 256]

/-- `DataView.getUint32(0, true)` over a 4-byte buffer. -/
def readU32le (l : List Nat) : Nat :=
  l.getD 0 0 + 256 * l.getD 1 0 + 65536 * l.getD 2 0 + 16777216 * l.getD 3 0

/-- `createPayload`: `SNIC | dataLength(u32 LE) | mimeLen(u8) | mime |
nameLen(u8) | name | data`.  The length bytes are stored through a
`Uint8Array`, hence the `% 256`. -/
def createPayload (data mime name : List Nat) : List Nat :=
  MAGIC_SNIC ++ u32le data.length ++ [mime.length % 256] ++ mime ++
    [name.length % 256] ++ name ++ data

/-- The error kinds the decoder can surface.  `dataViewRangeError` is the
`RangeError` a `DataView.getUint32` on a buffer shorter than 4 bytes throws
(in `parsePayload`, when the buffer ends inside the `dataLength` field);
`invalidStegoHeader` covers the two stego-header validation messages;
`truncatedHeader` covers the `"Header Read Error"` messages;
`typedArrayRangeError` is the `RangeError` that
`new Uint32Array(totalPixels - reservedPixels)` throws in
`getShuffledIndices` when the count is negative (images with fewer than the
32 reserved pixels). -/
inductive CodecError where
  | unrecognizedPayloadMagic
  | truncatedHeader
  | dataViewRangeError
  | decompressionFailed
  | invalidStegoHeader
  | unrecognizedFormat
  | typedArrayRangeError
deriving DecidableEq

/-- The `(blob, fileName, fileType)` triple `parsePayload` produces; the blob
is kept as its byte list. -/
structure DecodedFile where
  data : List Nat
  mime : List Nat
  name : List Nat
deriving DecidableEq

/-- `parsePayload`.  `decompress` is the external gzip collaborator
(`DecompressionStream`), which either yields bytes or fails. -/
def parsePayload (decompress : List Nat → Option (List Nat))
    (buffer : List Nat) : Except CodecError DecodedFile :=
  if buffer.take 4 ≠ MAGIC_SNIC ∧ buffer.take 4 ≠ MAGIC_SNIZ then
    .error .unrecognizedPayloadMagic
  else if buffer.length < 8 then .error .dataViewRangeError
  else
    let dataSize := readU32le ((buffer.drop 4).take 4)
    if buffer.length < 9 then .error .truncatedHeader
    else
      let mimeLen := buffer.getD 8 0
      if buffer.length < 9 + mimeLen then .error .truncatedHeader
      else
        let mime := (buffer.drop 9).take mimeLen
        if buffer.length < 10 + mimeLen then .error .truncatedHeader
        else
          let nameLen := buffer.getD (9 + mimeLen) 0
          if buffer.length < 10 + mimeLen + nameLen then .error .truncatedHeader
          else
            let name := (buffer.drop (10 + mimeLen)).take nameLen
            let fileData := (buffer.drop (10 + mimeLen + nameLen)).take dataSize
            if buffer.take 4 = MAGIC_SNIZ then
              match decompress fileData with
              | some d => .ok ⟨d, mime, name⟩
              | none => .error .decompressionFailed
            else .ok ⟨fileData, mime, name⟩

/-- The pixel grid of `encodeFileToImage`: each pixel takes the next three
unread payload bytes as R,G,B (zero-filled past the end) and alpha 255. -/
def noisePixels (payload : List Nat) (w h : Nat) : List Nat :=
  (List.range (w * h)).flatMap fun i =>
    [payload.getD (3 * i) 0, payload.getD (3 * i + 1) 0,
     payload.getD (3 * i + 2) 0, 255]

/-- `encodeFileToImage`: frame the file, size the square-ish canvas, fill the
pixels; returns `(width, height, pixel buffer)`. -/
def encodeFileToImage (data mime name : List Nat) : Nat × Nat × List Nat :=
  let fullBuffer := createPayload data mime name
  let totalPixels := ceilDiv fullBuffer.length 3
  let width := ceilSqrtN totalPixels
  let height := ceilDiv totalPixels width
  (width, height, noisePixels fullBuffer width height)

/-- Pixel-buffer read; out-of-range reads are 0 (JavaScript's `undefined`
behaves as 0 under the bit operations applied to every such read). -/
def pxAt (pixels : List Nat) (i : Nat) : Nat := pixels.getD i 0

/-- The `k`-th bit of the linear LSB stream: 1 bit per channel, cycling
R,G,B, skipping alpha — bit `k` lives in channel `k % 3` of pixel `k / 3`. -/
def lsbBit (pixels : List Nat) (k : Nat) : Nat :=
  pxAt pixels (4 * (k / 3) + k % 3) &&& 1

/-- `readByte` of the linear LSB stream, starting at bit `s`. -/
def lsbByte (pixels : List Nat) (s : Nat) : Nat :=
  bitsToNat ((List.range 8).map fun b => lsbBit pixels (s + b))

/-- `decodeStandardImage`: re-linearize all pixels (3 bytes per pixel, alpha
dropped) and parse. -/
def decodeStandardImage (decompress : List Nat → Option (List Nat))
    (pixels : List Nat) (w h : Nat) : Except CodecError DecodedFile :=
  parsePayload decompress ((List.range (w * h)).flatMap fun i =>
    [pxAt pixels (4 * i), pxAt pixels (4 * i + 1), pxAt pixels (4 * i + 2)])

/-- The channel indices the scattered payload walk touches, in order: for
each shuffled pixel index, its R, G, B byte offsets in the RGBA buffer. -/
def channelSlots (shuffled : List Nat) : List Nat :=
  shuffled.flatMap fun idx => [4 * idx, 4 * idx + 1, 4 * idx + 2]

/-- The flat bit stream the stego extractor reads: for each selected channel,
its low `bpc` bits, least-significant first. -/
def extractBits (pixels slots : List Nat) (bpc : Nat) : List Nat :=
  slots.flatMap fun s => (List.range bpc).map fun b => (pxAt pixels s >>> b) &&& 1

/-- Pack a bit stream into `k` bytes, 8 bits per byte, LSB first (the
extractor's `currentByte |= bit << payloadBitIdx` accumulation). -/
def bytesFromBits : Nat → List Nat → List Nat
  | 0, _ => []
  | k + 1, bits => bitsToNat (bits.take 8) :: bytesFromBits k (bits.drop 8)

/-- The extractor loop of `decodeStegoImage`: walk the shuffled channels,
collect full bytes until `len` bytes are read or the bit stream is
exhausted; the output `Uint8Array(len)` keeps its zero initialisation at
every byte never completed. -/
def stegoExtractBytes (pixels : List Nat) (w h len bpc : Nat) : List Nat :=
  let shuffled := getShuffledIndices (w * h) RESERVED_HEADER_PIXELS
  let bits := extractBits pixels (channelSlots shuffled) bpc
  let k := min len (bits.length / 8)
  bytesFromBits k bits ++ List.replicate (len - k) 0

/-- The extraction phase of `decodeStegoImage` (after header validation):
building the shuffle executes `new Uint32Array(totalPixels - 32)`, which
throws a `RangeError` when the image has fewer than the 32 reserved pixels;
otherwise the extractor loop runs and returns its byte buffer. -/
def stegoExtract (pixels : List Nat) (w h len bpc : Nat) :
    Except CodecError (List Nat) :=
  if w * h < RESERVED_HEADER_PIXELS then .error .typedArrayRangeError
  else .ok (stegoExtractBytes pixels w h len bpc)

theorem stegoExtract_eq (pixels : List Nat) (w h len bpc : Nat) :
    stegoExtract pixels w h len bpc =
      if w * h < RESERVED_HEADER_PIXELS then .error .typedArrayRangeError
      else .ok (stegoExtractBytes pixels w h len bpc) :=
  rfl

/-- `decodeStegoImage`: read length and BPC from the linear LSB stream
(bits 32–71, continuing where the magic check stopped), validate, extract
(which can throw the typed-array `RangeError`), parse. -/
def decodeStegoImage (decompress : List Nat → Option (List Nat))
    (pixels : List Nat) (w h : Nat) : Except CodecError DecodedFile :=
  let payloadLen := readU32le [lsbByte pixels 32, lsbByte pixels 40,
    lsbByte pixels 48, lsbByte pixels 56]
  let bpc := lsbByte pixels 64
  if bpc < 1 ∨ 8 < bpc then .error .invalidStegoHeader
  else if w * h * 3 * bpc < payloadLen then .error .invalidStegoHeader
  else match stegoExtract pixels w h payloadLen bpc with
    | .ok payload => parsePayload decompress payload
    | .error e => .error e

/-- `decodeImageToFile`: probe bytes `pixel0.R, pixel0.G, pixel0.B, pixel1.R`
against `SNIC`/`SNIZ`, else the first 32 linear LSB bits against `SNIH`,
else fail. -/
def decodeImageToFile (decompress : List Nat → Option (List Nat))
    (pixels : List Nat) (w h : Nat) : Except CodecError DecodedFile :=
  let probe := [pxAt pixels 0, pxAt pixels 1, pxAt pixels 2, pxAt pixels 4]
  if probe = MAGIC_SNIC ∨ probe = MAGIC_SNIZ then
    decodeStandardImage decompress pixels w h
  else if [lsbByte pixels 0, lsbByte pixels 8, lsbByte pixels 16,
      lsbByte pixels 24] = MAGIC_SNIH then
    decodeStegoImage decompress pixels w h
  else .error .unrecognizedFormat

/-- The clamping write of a `Uint8ClampedArray`. -/
def clamp255 (x : Int) : Nat := (min 255 (max 0 x)).toNat

/-- `applyOPAP`.  `1 << bpc` and `1 << (bpc - 1)` are `2^bpc` and
`2^(bpc-1)`; every call site has `1 ≤ bpc ≤ 7`. -/
def applyOPAP (original modified : Int) (bpc : Nat) : Int :=
  let delta := modified - original
  let interval : Int := 2 ^ bpc
  let limit : Int := 2 ^ (bpc - 1)
  if limit < delta ∧ 0 ≤ modified - interval then modified - interval
  else if delta < -limit ∧ modified + interval ≤ 255 then modified + interval
  else modified

/-- Force every alpha byte to 255 (`for (let i = 3; i < len; i += 4)`). -/
def forceAlpha (pixels : List Nat) : List Nat :=
  (List.range pixels.length).map fun i => if i % 4 = 3 then 255 else pixels.getD i 0

/-- The 72 stego header bits: `SNIH`, payload byte length (32 bits LSB
first), BPC (8 bits). -/
def headerBitsList (len bpc : Nat) : List Nat :=
  MAGIC_SNIH.flatMap (natBits 8) ++ natBits 32 len ++ natBits 8 bpc

/-- Byte offset of linear header bit `k` (channel `k % 3` of pixel `k / 3`). -/
def headerPos (k : Nat) : Nat := 4 * (k / 3) + k % 3

/-- Write the header bits into the pixel LSBs:
`pixels[pIdx] = (pixels[pIdx] & ~1) | bit`. -/
def writeHeader (pixels : List Nat) (hb : List Nat) : List Nat :=
  (List.range hb.length).foldl
    (fun px k => px.set (headerPos k) (px.getD (headerPos k) 0 / 2 * 2 + hb.getD k 0))
    pixels

/-- `(originalVal & ~mask) | bitsToEmbed` for a byte-sized original. -/
def substLow (orig bits bpc : Nat) : Nat := (orig >>> bpc) <<< bpc ||| bits

/-- One channel write of the embedder: substitution then (for `bpc < 8`)
OPAP, stored through the clamping array. -/
def opapWrite (orig bits bpc : Nat) : Nat :=
  let modified := substLow orig bits bpc
  if bpc < 8 then clamp255 (applyOPAP (orig : Int) (modified : Int) bpc)
  else clamp255 (modified : Int)

/-- The payload as a flat bit stream, LSB first within each byte. -/
def payloadBitsOf (payload : List Nat) : List Nat := payload.flatMap (natBits 8)

/-- `bitsToEmbed` of the `q`-th written channel: the next `bpc` payload bits
(fewer at the very end, the missing high bits staying 0). -/
def chunkAt (pb : List Nat) (bpc q : Nat) : Nat :=
  bitsToNat ((pb.drop (q * bpc)).take bpc)

/-- The scattered payload walk: the loop consumes `bpc` payload bits per
channel, three channels per shuffled pixel, and stops (`break`) right after
the channel holding the last payload bit, i.e. after
`⌈8·len / bpc⌉` channels. -/
def embedPayload (pixels shuffled payload : List Nat) (bpc : Nat) : List Nat :=
  let pb := payloadBitsOf payload
  let nCh := ceilDiv (8 * payload.length) bpc
  let slots := (channelSlots shuffled).take nCh
  (List.range slots.length).foldl
    (fun px q =>
      let s := slots.getD q 0
      px.set s (opapWrite (px.getD s 0) (chunkAt pb bpc q) bpc))
    pixels

/-- The embedding pipeline of `hideDataInImage` on the already-resampled
cover buffer: force alpha, write the linear header, scatter the payload. -/
def stegoEmbed (cover : List Nat) (w h : Nat) (payload : List Nat) (bpc : Nat) :
    List Nat :=
  embedPayload (writeHeader (forceAlpha cover) (headerBitsList payload.length bpc))
    (getShuffledIndices (w * h) RESERVED_HEADER_PIXELS) payload bpc

/-- The scaling decision of `hideDataInImage` (lines 64–96), in exact
arithmetic: `Math.sqrt` and the ceilings are modelled exactly, with
`⌈W·√(dP/(W·H))⌉` computed as the least `n` with `n²·H ≥ W·dP` (the
source's `scale = max(1, …)` becomes the outer `max`). -/
def plannerNewDims (T W H targetBPC : Nat) : Nat × Nat :=
  let availablePixels := W * H - RESERVED_HEADER_PIXELS
  let minRequiredBPC := ceilDiv T (availablePixels * 3)
  if targetBPC < minRequiredBPC then
    let desiredChannels := ceilDiv T targetBPC
    let desiredPixels := ceilDiv desiredChannels 3 + RESERVED_HEADER_PIXELS
    (max W (ceilSqrtN (ceilDiv (W * desiredPixels) H)),
     max H (ceilSqrtN (ceilDiv (H * desiredPixels) W)))
  else if availablePixels * 3 * targetBPC < 2 * T then
    (ceilDiv (5 * W) 4, ceilDiv (5 * H) 4)
  else
    (W, H)

/-- Line 96: `const finalBPC = targetBPC` — density is never changed. -/
def finalBPC (targetBPC : Nat) : Nat := targetBPC

/-- The UTF-8 bytes of `"audio/mpeg"`. -/
def mimeAudioMpeg : List Nat := [97, 117, 100, 105, 111, 47, 109, 112, 101, 103]

/-- The UTF-8 bytes of `"a.mp3"`. -/
def nameAmp3 : List Nat := [97, 46, 109, 112, 51]

theorem ceilDiv_le_iff {a b k : Nat} (hb : 0 < b) : ceilDiv a b ≤ k ↔ a ≤ b * k := by
  unfold ceilDiv
  rw [Nat.div_le_iff_le_mul_add_pred hb]
  omega

theorem le_mul_ceilDiv {a b : Nat} (hb : 0 < b) : a ≤ b * ceilDiv a b :=
  (ceilDiv_le_iff hb).mp (Nat.le_refl _)

theorem ceilDiv_zero (b : Nat) : ceilDiv 0 b = 0 := by
  unfold ceilDiv
  rcases Nat.eq_zero_or_pos b with h | h
  · simp [h]
  · rw [Nat.zero_add]
    exact Nat.div_eq_of_lt (by omega)

theorem ceilSqrtAux_sq_ge (c : Nat) :
    ∀ fuel n, c ≤ (n + fuel) * (n + fuel) →
      c ≤ ceilSqrtAux c fuel n * ceilSqrtAux c fuel n := by
  intro fuel
  induction fuel with
  | zero => intro n h; rw [ceilSqrtAux]; simpa using h
  | succ fuel ih =>
    intro n h
    rw [ceilSqrtAux]
    split
    · assumption
    · apply ih (n + 1)
      have heq : n + 1 + fuel = n + (fuel + 1) := by omega
      rw [heq]
      exact h

theorem ceilSqrtN_sq_ge (c : Nat) : c ≤ ceilSqrtN c * ceilSqrtN c := by
  apply ceilSqrtAux_sq_ge
  rcases Nat.eq_zero_or_pos c with h | h
  · simp [h]
  · calc c = c * 1 := (Nat.mul_one c).symm
      _ ≤ (0 + c) * (0 + c) := by
        simp only [Nat.zero_add]
        exact Nat.mul_le_mul_left c h

/-- Claim C9: framing an empty data buffer with mime `"audio/mpeg"` and name
`"a.mp3"` produces a 25-byte payload; noise-encoding it computes
`totalPixels = 9`, `width = 3`, `height = 3`; and decoding the resulting
image returns empty data with the original mime and name. -/
theorem noise_concrete_scenario (decompress : List Nat → Option (List Nat)) :
    (createPayload [] mimeAudioMpeg nameAmp3).length = 25 ∧
    ceilDiv (createPayload [] mimeAudioMpeg nameAmp3).length 3 = 9 ∧
    (encodeFileToImage [] mimeAudioMpeg nameAmp3).1 = 3 ∧
    (encodeFileToImage [] mimeAudioMpeg nameAmp3).2.1 = 3 ∧
    decodeImageToFile decompress (encodeFileToImage [] mimeAudioMpeg nameAmp3).2.2 3 3 =
      .ok ⟨[], mimeAudioMpeg, nameAmp3⟩ := by
  exact ⟨rfl, rfl, rfl, rfl, rfl⟩

theorem substLow_eq (o v bpc : Nat) (hv : v < 2 ^ bpc) :
    substLow o v bpc = 2 ^ bpc * (o / 2 ^ bpc) + v := by
  rw [substLow, Nat.shiftRight_eq_div_pow, Nat.shiftLeft_eq, Nat.mul_comm,
    ← Nat.mul_add_lt_is_or hv]

/-- Claim C5: for every original byte, `BPC ∈ [1,7]` and `BPC`-bit value `v`
substituted into the low bits, the OPAP output masked with `(1<<BPC)-1`
equals `modified & mask`, and the OPAP output is a nearest value to
`original` among `{modified, modified - 2^BPC, modified + 2^BPC}` restricted
to `[0, 255]`. -/
theorem applyOPAP_spec (original v bpc : Nat) (hor : original ≤ 255)
    (hb1 : 1 ≤ bpc) (hb7 : bpc ≤ 7) (hv : v < 2 ^ bpc) :
    ((applyOPAP (original : Int) ((substLow original v bpc : Nat) : Int) bpc).toNat
        &&& (2 ^ bpc - 1) = substLow original v bpc &&& (2 ^ bpc - 1)) ∧
    (applyOPAP (original : Int) ((substLow original v bpc : Nat) : Int) bpc
        = ((substLow original v bpc : Nat) : Int) ∨
     applyOPAP (original : Int) ((substLow original v bpc : Nat) : Int) bpc
        = ((substLow original v bpc : Nat) : Int) - 2 ^ bpc ∨
     applyOPAP (original : Int) ((substLow original v bpc : Nat) : Int) bpc
        = ((substLow original v bpc : Nat) : Int) + 2 ^ bpc) ∧
    (0 ≤ applyOPAP (original : Int) ((substLow original v bpc : Nat) : Int) bpc ∧
     applyOPAP (original : Int) ((substLow original v bpc : Nat) : Int) bpc ≤ 255) ∧
    (∀ x : Int,
      (x = ((substLow original v bpc : Nat) : Int) ∨
       x = ((substLow original v bpc : Nat) : Int) - 2 ^ bpc ∨
       x = ((substLow original v bpc : Nat) : Int) + 2 ^ bpc) →
      0 ≤ x → x ≤ 255 →
      (applyOPAP (original : Int) ((substLow original v bpc : Nat) : Int) bpc
          - original).natAbs ≤ (x - original).natAbs) := by
  rw [Nat.and_pow_two_sub_one_eq_mod, Nat.and_pow_two_sub_one_eq_mod,
    substLow_eq original v bpc hv]
  rw [applyOPAP]
  interval_cases bpc <;>
    split_ifs <;>
      refine ⟨by omega, by omega, by omega, fun x hx hx0 hx255 => ?_⟩ <;>
        rcases hx with hx | hx | hx <;> omega

/-- Witness for C5 at `original = 200`, `v = 0`, `bpc = 3`
(`modified = 200 & ~7 = 200`, OPAP keeps it). -/
theorem applyOPAP_spec_witness :
    (applyOPAP (200 : Int) ((substLow 200 0 3 : Nat) : Int) 3).toNat &&& 7 =
      substLow 200 0 3 &&& 7 ∧
    (0 ≤ applyOPAP (200 : Int) ((substLow 200 0 3 : Nat) : Int) 3 ∧
     applyOPAP (200 : Int) ((substLow 200 0 3 : Nat) : Int) 3 ≤ 255) := by
  have h := applyOPAP_spec 200 0 3 (by decide) (by decide) (by decide) (by decide)
  exact ⟨h.1, h.2.2.1⟩

theorem plannerNewDims_eq (T W H t : Nat) :
    plannerNewDims T W H t =
      if t < ceilDiv T ((W * H - 32) * 3) then
        (max W (ceilSqrtN (ceilDiv (W * (ceilDiv (ceilDiv T t) 3 + 32)) H)),
         max H (ceilSqrtN (ceilDiv (H * (ceilDiv (ceilDiv T t) 3 + 32)) W)))
      else if (W * H - 32) * 3 * t < 2 * T then
        (ceilDiv (5 * W) 4, ceilDiv (5 * H) 4)
      else (W, H) := rfl

theorem planner_capacity_core (T W H targetBPC : Nat) (hWH : 32 < W * H)
    (hb1 : 1 ≤ targetBPC) (hb7 : targetBPC ≤ 7) :
    ceilDiv T (((plannerNewDims T W H targetBPC).1 *
      (plannerNewDims T W H targetBPC).2 - 32) * 3) ≤ targetBPC := by
  have hW : 0 < W := by
    rcases Nat.eq_zero_or_pos W with h | h
    · subst h; simp at hWH
    · exact h
  have hH : 0 < H := by
    rcases Nat.eq_zero_or_pos H with h | h
    · subst h; simp at hWH
    · exact h
  rw [plannerNewDims_eq]
  split_ifs with hA hB
  · -- Condition A: upscale restores feasibility at the requested density.
    set dC := ceilDiv T targetBPC with hdC
    set dP := ceilDiv dC 3 + 32 with hdP
    have hT1 : 1 ≤ T := by
      by_contra h
      have hT0 : T = 0 := by omega
      rw [hT0, ceilDiv_zero] at hA
      omega
    have hdC1 : 1 ≤ dC := by
      by_contra hc
      have h0 : dC = 0 := by omega
      have h8 := le_mul_ceilDiv (a := T) (b := targetBPC) (by omega)
      rw [← hdC, h0, Nat.mul_zero] at h8
      omega
    have h9 : 1 ≤ ceilDiv dC 3 := by unfold ceilDiv; omega
    set n := max W (ceilSqrtN (ceilDiv (W * dP) H)) with hn
    set m := max H (ceilSqrtN (ceilDiv (H * dP) W)) with hm
    have hnsq : W * dP ≤ n * n * H := by
      have h1 : ceilDiv (W * dP) H ≤ ceilSqrtN (ceilDiv (W * dP) H) *
          ceilSqrtN (ceilDiv (W * dP) H) := ceilSqrtN_sq_ge _
      have h2 : ceilSqrtN (ceilDiv (W * dP) H) ≤ n := le_max_right _ _
      have h3 : W * dP ≤ H * ceilDiv (W * dP) H := le_mul_ceilDiv hH
      calc W * dP ≤ H * ceilDiv (W * dP) H := h3
        _ ≤ H * (n * n) := Nat.mul_le_mul_left H
            (h1.trans (Nat.mul_le_mul h2 h2))
        _ = n * n * H := by ring
    have hmsq : H * dP ≤ m * m * W := by
      have h1 : ceilDiv (H * dP) W ≤ ceilSqrtN (ceilDiv (H * dP) W) *
          ceilSqrtN (ceilDiv (H * dP) W) := ceilSqrtN_sq_ge _
      have h2 : ceilSqrtN (ceilDiv (H * dP) W) ≤ m := le_max_right _ _
      have h3 : H * dP ≤ W * ceilDiv (H * dP) W := le_mul_ceilDiv hW
      calc H * dP ≤ W * ceilDiv (H * dP) W := h3
        _ ≤ W * (m * m) := Nat.mul_le_mul_left W
            (h1.trans (Nat.mul_le_mul h2 h2))
        _ = m * m * W := by ring
    have hnm : dP ≤ n * m := by
      have hmul := Nat.mul_le_mul hnsq hmsq
      have h4 : (W * H) * (dP * dP) ≤ (W * H) * ((n * m) * (n * m)) := by
        calc (W * H) * (dP * dP) = (W * dP) * (H * dP) := by ring
          _ ≤ (n * n * H) * (m * m * W) := hmul
          _ = (W * H) * ((n * m) * (n * m)) := by ring
      have h5 : dP * dP ≤ (n * m) * (n * m) :=
        Nat.le_of_mul_le_mul_left h4 (by positivity)
      exact Nat.mul_self_le_mul_self_iff.mp h5
    have hcap : T ≤ ((n * m - 32) * 3) * targetBPC := by
      have h6 : ceilDiv dC 3 ≤ n * m - 32 := by omega
      have h7 : dC ≤ 3 * (n * m - 32) :=
        (le_mul_ceilDiv (a := dC) (b := 3) (by omega)).trans
          (Nat.mul_le_mul_left 3 h6)
      have h8 : T ≤ targetBPC * dC := le_mul_ceilDiv (by omega)
      calc T ≤ targetBPC * dC := h8
        _ ≤ targetBPC * (3 * (n * m - 32)) := Nat.mul_le_mul_left _ h7
        _ = ((n * m - 32) * 3) * targetBPC := by ring
    exact (ceilDiv_le_iff (by omega : 0 < ((n * m - 32) * 3))).mpr hcap
  · -- Condition B: the 1.25 upscale only grows the image.
    have hnW : W ≤ ceilDiv (5 * W) 4 := by unfold ceilDiv; omega
    have hnH : H ≤ ceilDiv (5 * H) 4 := by unfold ceilDiv; omega
    have hmono : W * H ≤ ceilDiv (5 * W) 4 * ceilDiv (5 * H) 4 :=
      Nat.mul_le_mul hnW hnH
    have hfit : T ≤ ((W * H - 32) * 3) * targetBPC :=
      (ceilDiv_le_iff (by omega : 0 < (W * H - 32) * 3)).mp (by omega)
    apply (ceilDiv_le_iff (by omega : 0 <
      (ceilDiv (5 * W) 4 * ceilDiv (5 * H) 4 - 32) * 3)).mpr
    calc T ≤ ((W * H - 32) * 3) * targetBPC := hfit
      _ ≤ ((ceilDiv (5 * W) 4 * ceilDiv (5 * H) 4 - 32) * 3) * targetBPC := by
        apply Nat.mul_le_mul_right
        apply Nat.mul_le_mul_right
        omega
  · -- No scaling: Condition A failed, so the payload already fits.
    exact (ceilDiv_le_iff (by omega : 0 < (W * H - 32) * 3)).mpr
      ((ceilDiv_le_iff (by omega : 0 < (W * H - 32) * 3)).mp (by omega))

/-- Claim C6: for every payload bit length `T`, cover with `W*H > 32` and
`targetBPC ∈ [1,7]`, the planner keeps `finalBPC = targetBPC`, and the
minimum required BPC recomputed at the scaled dimensions is at most
`targetBPC`. -/
theorem planner_capacity (T W H targetBPC : Nat) (hWH : 32 < W * H)
    (hb1 : 1 ≤ targetBPC) (hb7 : targetBPC ≤ 7) :
    finalBPC targetBPC = targetBPC ∧
    ceilDiv T (((plannerNewDims T W H targetBPC).1 *
      (plannerNewDims T W H targetBPC).2 - 32) * 3) ≤ targetBPC :=
  ⟨rfl, planner_capacity_core T W H targetBPC hWH hb1 hb7⟩

/-- Witness for C6 at `T = 100`, `W = H = 8`, `targetBPC = 3`
(no-scaling branch). -/
theorem planner_capacity_witness :
    finalBPC 3 = 3 ∧
    ceilDiv 100 (((plannerNewDims 100 8 8 3).1 *
      (plannerNewDims 100 8 8 3).2 - 32) * 3) ≤ 3 := by
  exact planner_capacity 100 8 8 3 (by decide) (by decide) (by decide)

theorem parsePayload_eq (dec : List Nat → Option (List Nat)) (buffer : List Nat) :
    parsePayload dec buffer =
      if buffer.take 4 ≠ MAGIC_SNIC ∧ buffer.take 4 ≠ MAGIC_SNIZ then
        .error .unrecognizedPayloadMagic
      else if buffer.length < 8 then .error .dataViewRangeError
      else if buffer.length < 9 then .error .truncatedHeader
      else if buffer.length < 9 + buffer.getD 8 0 then .error .truncatedHeader
      else if buffer.length < 10 + buffer.getD 8 0 then .error .truncatedHeader
      else if buffer.length < 10 + buffer.getD 8 0 + buffer.getD (9 + buffer.getD 8 0) 0 then
        .error .truncatedHeader
      else if buffer.take 4 = MAGIC_SNIZ then
        match dec ((buffer.drop (10 + buffer.getD 8 0 + buffer.getD (9 + buffer.getD 8 0) 0)).take
            (readU32le ((buffer.drop 4).take 4))) with
        | some d => .ok ⟨d, (buffer.drop 9).take (buffer.getD 8 0),
            (buffer.drop (10 + buffer.getD 8 0)).take (buffer.getD (9 + buffer.getD 8 0) 0)⟩
        | none => .error .decompressionFailed
      else .ok ⟨(buffer.drop (10 + buffer.getD 8 0 + buffer.getD (9 + buffer.getD 8 0) 0)).take
          (readU32le ((buffer.drop 4).take 4)),
          (buffer.drop 9).take (buffer.getD 8 0),
          (buffer.drop (10 + buffer.getD 8 0)).take (buffer.getD (9 + buffer.getD 8 0) 0)⟩ :=
  rfl

/-- Claim C7 (amended): `parsePayload` fails with `UnrecognizedPayloadMagic`
exactly when the first four bytes are neither `SNIC` nor `SNIZ`; it fails
with `TruncatedHeader` exactly when the `mimeLen`, `mime`, `nameLen` or
`name` field would extend past the end of the buffer; a buffer that ends
inside the `dataLength` field fails with the `DataView` `RangeError`
instead (no `TruncatedHeader`); and it never fails merely because the data
region is shorter than the declared `dataLength` — for a raw (`SNIC`)
payload it returns the partial slice
`buffer[ptr, min(ptr + dataLength, buffer.length))`. -/
theorem parsePayload_error_characterisation
    (dec : List Nat → Option (List Nat)) (buffer : List Nat) :
    (parsePayload dec buffer = .error .unrecognizedPayloadMagic ↔
      (buffer.take 4 ≠ MAGIC_SNIC ∧ buffer.take 4 ≠ MAGIC_SNIZ)) ∧
    (parsePayload dec buffer = .error .dataViewRangeError ↔
      ((buffer.take 4 = MAGIC_SNIC ∨ buffer.take 4 = MAGIC_SNIZ) ∧
        buffer.length < 8)) ∧
    (parsePayload dec buffer = .error .truncatedHeader ↔
      ((buffer.take 4 = MAGIC_SNIC ∨ buffer.take 4 = MAGIC_SNIZ) ∧
        8 ≤ buffer.length ∧
        (buffer.length < 9 ∨ buffer.length < 9 + buffer.getD 8 0 ∨
         buffer.length < 10 + buffer.getD 8 0 ∨
         buffer.length < 10 + buffer.getD 8 0 + buffer.getD (9 + buffer.getD 8 0) 0))) ∧
    (buffer.take 4 = MAGIC_SNIC →
      10 + buffer.getD 8 0 + buffer.getD (9 + buffer.getD 8 0) 0 ≤ buffer.length →
      parsePayload dec buffer =
        .ok ⟨(buffer.drop (10 + buffer.getD 8 0 + buffer.getD (9 + buffer.getD 8 0) 0)).take
              (readU32le ((buffer.drop 4).take 4)),
             (buffer.drop 9).take (buffer.getD 8 0),
             (buffer.drop (10 + buffer.getD 8 0)).take
               (buffer.getD (9 + buffer.getD 8 0) 0)⟩) := by
  have hsz : buffer.take 4 = MAGIC_SNIC → buffer.take 4 ≠ MAGIC_SNIZ := by
    intro h hz
    rw [h] at hz
    simp [MAGIC_SNIC, MAGIC_SNIZ] at hz
  refine ⟨?_, ?_, ?_, ?_⟩
  · rw [parsePayload_eq]
    split_ifs with h1 h2 h3 h4 h5 h6 h7 <;> try split
    all_goals simp_all
    all_goals tauto
  · rw [parsePayload_eq]
    split_ifs with h1 h2 h3 h4 h5 h6 h7 <;> try split
    all_goals simp_all
    all_goals tauto
  · rw [parsePayload_eq]
    split_ifs with h1 h2 h3 h4 h5 h6 h7 <;> try split
    all_goals simp_all
    all_goals try tauto
    all_goals omega
  · intro hsnic hlen
    rw [parsePayload_eq]
    rw [if_neg (by simp [hsnic]), if_neg (by omega), if_neg (by omega),
      if_neg (by omega), if_neg (by omega), if_neg (by omega), if_neg (hsz hsnic)]

/-- Witness for C7 (amended) at a well-formed 15-byte `SNIC` buffer carrying
mime `[97]`, name `[98]` and 3 data bytes. -/
theorem parsePayload_error_characterisation_witness :
    parsePayload (fun _ => none)
        [0x53, 0x4E, 0x49, 0x43, 3, 0, 0, 0, 1, 97, 1, 98, 9, 8, 7] =
      .ok ⟨[9, 8, 7], [97], [98]⟩ := by
  have h := (parsePayload_error_characterisation (fun _ => none)
    [0x53, 0x4E, 0x49, 0x43, 3, 0, 0, 0, 1, 97, 1, 98, 9, 8, 7]).2.2.2
    (by decide) (by decide)
  simpa using h

/-- Counterexample to C7 as stated: on the 6-byte buffer
`SNIC ++ [0, 0]` the `dataLength` field extends past the end of the buffer,
yet `parsePayload` does not fail with `TruncatedHeader` — the short
`DataView` throws a `RangeError` instead. -/
theorem parsePayload_c7_counterexample :
    parsePayload (fun _ => none) [0x53, 0x4E, 0x49, 0x43, 0, 0] =
        .error .dataViewRangeError ∧
      CodecError.dataViewRangeError ≠ CodecError.truncatedHeader := by
  exact ⟨rfl, by decide⟩

theorem decodeImageToFile_eq (dec : List Nat → Option (List Nat))
    (pixels : List Nat) (w h : Nat) :
    decodeImageToFile dec pixels w h =
      if [pxAt pixels 0, pxAt pixels 1, pxAt pixels 2, pxAt pixels 4] = MAGIC_SNIC ∨
          [pxAt pixels 0, pxAt pixels 1, pxAt pixels 2, pxAt pixels 4] = MAGIC_SNIZ then
        decodeStandardImage dec pixels w h
      else if [lsbByte pixels 0, lsbByte pixels 8, lsbByte pixels 16,
          lsbByte pixels 24] = MAGIC_SNIH then
        decodeStegoImage dec pixels w h
      else .error .unrecognizedFormat :=
  rfl

theorem decodeStegoImage_eq (dec : List Nat → Option (List Nat))
    (pixels : List Nat) (w h : Nat) :
    decodeStegoImage dec pixels w h =
      if lsbByte pixels 64 < 1 ∨ 8 < lsbByte pixels 64 then .error .invalidStegoHeader
      else if w * h * 3 * lsbByte pixels 64 <
          readU32le [lsbByte pixels 32, lsbByte pixels 40, lsbByte pixels 48,
            lsbByte pixels 56] then
        .error .invalidStegoHeader
      else match stegoExtract pixels w h
        (readU32le [lsbByte pixels 32, lsbByte pixels 40, lsbByte pixels 48,
          lsbByte pixels 56]) (lsbByte pixels 64) with
        | .ok payload => parsePayload dec payload
        | .error e => .error e :=
  rfl

/-- Claim C8: a pixel buffer whose probe bytes match neither `SNIC` nor
`SNIZ` and whose first 32 linear-LSB bits do not spell `SNIH` decodes to the
`UnrecognizedFormat` error (no extraction is attempted). -/
theorem decode_unrecognized_format (dec : List Nat → Option (List Nat))
    (pixels : List Nat) (w h : Nat)
    (h1 : [pxAt pixels 0, pxAt pixels 1, pxAt pixels 2, pxAt pixels 4] ≠ MAGIC_SNIC)
    (h2 : [pxAt pixels 0, pxAt pixels 1, pxAt pixels 2, pxAt pixels 4] ≠ MAGIC_SNIZ)
    (h3 : [lsbByte pixels 0, lsbByte pixels 8, lsbByte pixels 16,
      lsbByte pixels 24] ≠ MAGIC_SNIH) :
    decodeImageToFile dec pixels w h = .error .unrecognizedFormat := by
  rw [decodeImageToFile_eq, if_neg (by tauto), if_neg h3]

/-- Witness for C8 on an all-zero 2×2 image. -/
theorem decode_unrecognized_format_witness :
    decodeImageToFile (fun _ => none) (List.replicate 16 0) 2 2 =
      .error .unrecognizedFormat :=
  decode_unrecognized_format (fun _ => none) (List.replicate 16 0) 2 2
    (by decide) (by decide) (by decide)

theorem lsbByte0_snih_px1_odd (pixels : List Nat)
    (h : lsbByte pixels 0 = 0x53) : pxAt pixels 1 % 2 = 1 := by
  rw [lsbByte, show List.range 8 = [0, 1, 2, 3, 4, 5, 6, 7] from rfl] at h
  simp [bitsToNat, lsbBit, Nat.and_one_is_mod] at h
  omega

/-- An image whose linear LSB stream starts with `SNIH` can never pass the
raw `SNIC`/`SNIZ` probe: the probe needs `pixels[1] = 0x4E` (even), but the
`SNIH` header makes `pixels[1]` odd. -/
theorem snih_probe_ne (pixels : List Nat)
    (hlsb : [lsbByte pixels 0, lsbByte pixels 8, lsbByte pixels 16,
      lsbByte pixels 24] = MAGIC_SNIH) :
    ¬([pxAt pixels 0, pxAt pixels 1, pxAt pixels 2, pxAt pixels 4] = MAGIC_SNIC ∨
      [pxAt pixels 0, pxAt pixels 1, pxAt pixels 2, pxAt pixels 4] = MAGIC_SNIZ) := by
  have h0 : lsbByte pixels 0 = 0x53 := by
    simp [MAGIC_SNIH] at hlsb
    exact hlsb.1
  have hodd := lsbByte0_snih_px1_odd pixels h0
  rintro (h | h) <;> (simp [MAGIC_SNIC, MAGIC_SNIZ] at h; omega)

theorem parsePayload_ne_invalidStegoHeader (dec : List Nat → Option (List Nat))
    (b : List Nat) : parsePayload dec b ≠ .error .invalidStegoHeader := by
  rw [parsePayload_eq]
  split_ifs <;> try split
  all_goals simp

/-- Claim C4 (amended): on a pixel buffer whose first 32 linear-LSB bits
spell `SNIH`, decode fails with `InvalidStegoHeader` exactly when the
decoded BPC is outside `[1,8]` or the declared byte length exceeds
`width*height*3*BPC` (the source compares the byte count against this
bit-count bound — 8 times the byte capacity the spec states); otherwise it
dispatches to the stego extractor when the image has at least the 32
reserved pixels, and on smaller images the dispatch reaches the
`RangeError` of `new Uint32Array(width*height - 32)` instead. -/
theorem decode_stego_header_validation (dec : List Nat → Option (List Nat))
    (pixels : List Nat) (w h : Nat)
    (hlsb : [lsbByte pixels 0, lsbByte pixels 8, lsbByte pixels 16,
      lsbByte pixels 24] = MAGIC_SNIH) :
    (decodeImageToFile dec pixels w h = .error .invalidStegoHeader ↔
      (lsbByte pixels 64 < 1 ∨ 8 < lsbByte pixels 64 ∨
        w * h * 3 * lsbByte pixels 64 <
          readU32le [lsbByte pixels 32, lsbByte pixels 40, lsbByte pixels 48,
            lsbByte pixels 56])) ∧
    (1 ≤ lsbByte pixels 64 → lsbByte pixels 64 ≤ 8 →
      readU32le [lsbByte pixels 32, lsbByte pixels 40, lsbByte pixels 48,
          lsbByte pixels 56] ≤ w * h * 3 * lsbByte pixels 64 →
      (RESERVED_HEADER_PIXELS ≤ w * h →
        decodeImageToFile dec pixels w h =
          parsePayload dec (stegoExtractBytes pixels w h
            (readU32le [lsbByte pixels 32, lsbByte pixels 40, lsbByte pixels 48,
              lsbByte pixels 56]) (lsbByte pixels 64))) ∧
      (w * h < RESERVED_HEADER_PIXELS →
        decodeImageToFile dec pixels w h = .error .typedArrayRangeError)) := by
  have hprobe := snih_probe_ne pixels hlsb
  constructor
  · rw [decodeImageToFile_eq, if_neg hprobe, if_pos hlsb, decodeStegoImage_eq]
    split_ifs with ha hb
    · exact iff_of_true rfl (by omega)
    · exact iff_of_true rfl (by omega)
    · rw [stegoExtract_eq]
      split_ifs with hc
      · constructor
        · intro hcontra
          exact absurd hcontra (by simp)
        · intro hcontra
          exact absurd hcontra (by omega)
      · constructor
        · intro hcontra
          exact absurd hcontra (parsePayload_ne_invalidStegoHeader dec _)
        · intro hcontra
          exact absurd hcontra (by omega)
  · intro h1 h2 h3
    constructor
    · intro hge
      rw [decodeImageToFile_eq, if_neg hprobe, if_pos hlsb, decodeStegoImage_eq,
        if_neg (by omega), if_neg (by omega), stegoExtract_eq, if_neg (by omega)]
    · intro hlt
      rw [decodeImageToFile_eq, if_neg hprobe, if_pos hlsb, decodeStegoImage_eq,
        if_neg (by omega), if_neg (by omega), stegoExtract_eq, if_pos hlt]

/-- Builder for LSB test vectors: an `n`-pixel RGBA buffer whose linear LSB
stream is the given bit list (alpha opaque, all other bits zero). -/
def lsbPixelsOf (bits : List Nat) (n : Nat) : List Nat :=
  (List.range (4 * n)).map fun i =>
    if i % 4 = 3 then 255 else bits.getD (3 * (i / 4) + i % 4) 0

set_option maxRecDepth 100000 in
set_option maxHeartbeats 2000000 in
/-- Witness for C4 (amended) on an 8×8 image whose LSB header declares
`length = 100`, `BPC = 0`: BPC is out of range, so decode fails with
`InvalidStegoHeader`. -/
theorem decode_stego_header_validation_witness :
    decodeImageToFile (fun _ => none) (lsbPixelsOf (headerBitsList 100 0) 64) 8 8 =
      .error .invalidStegoHeader :=
  (decode_stego_header_validation (fun _ => none)
    (lsbPixelsOf (headerBitsList 100 0) 64) 8 8 (by decide)).1.mpr (by decide)

set_option maxRecDepth 100000 in
set_option maxHeartbeats 2000000 in
/-- Counterexample to C4 as stated: an 8×8 image whose LSB header declares
`length = 100`, `BPC = 1`.  The capacity the claim states is
`8*8*3*1/8 = 24` bytes, and `100 > 24`, so the claim demands
`InvalidStegoHeader`; but the code compares `100` against the bit count
`8*8*3*1 = 192` and accepts the header, extracts, and fails later in the
payload parser with `UnrecognizedPayloadMagic` instead. -/
theorem decode_c4_counterexample :
    decodeImageToFile (fun _ => none) (lsbPixelsOf (headerBitsList 100 1) 64) 8 8 =
        .error .unrecognizedPayloadMagic ∧
      8 * 8 * 3 * 1 / 8 < 100 ∧
      CodecError.unrecognizedPayloadMagic ≠ CodecError.invalidStegoHeader := by
  exact ⟨rfl, by decide, by decide⟩

theorem bytesFromBits_length (k : Nat) :
    ∀ bits : List Nat, (bytesFromBits k bits).length = k := by
  induction k with
  | zero => intro bits; rw [bytesFromBits]; rfl
  | succ k ih => intro bits; rw [bytesFromBits]; simp [ih]

/-- Claim C10 (amended): on an image with at least the 32 reserved pixels,
the stego extraction phase never fails and returns exactly `len` bytes, and
when the shuffled bit stream is exhausted after `k` full bytes the
remaining `len - k` bytes are zeros (the `Uint8Array`'s zero
initialisation), never uninitialised garbage; on smaller images the
extraction phase instead reaches the typed-array `RangeError` even under a
validated header. -/
theorem stegoExtract_length_zero_pad (pixels : List Nat) (w h len bpc : Nat)
    (hwh : RESERVED_HEADER_PIXELS ≤ w * h) :
    stegoExtract pixels w h len bpc =
      .ok (stegoExtractBytes pixels w h len bpc) ∧
    (stegoExtractBytes pixels w h len bpc).length = len ∧
    ∃ k, k ≤ len ∧
      (stegoExtractBytes pixels w h len bpc).drop k =
        List.replicate (len - k) 0 := by
  constructor
  · rw [stegoExtract_eq, if_neg (by omega)]
  rw [stegoExtractBytes]
  refine ⟨?_, min len ((extractBits pixels (channelSlots
    (getShuffledIndices (w * h) RESERVED_HEADER_PIXELS)) bpc).length / 8), ?_, ?_⟩
  · rw [List.length_append, bytesFromBits_length, List.length_replicate]
    omega
  · exact Nat.min_le_left _ _
  · rw [List.drop_append_of_le_length (by rw [bytesFromBits_length])]
    rw [List.drop_eq_nil_of_le (by rw [bytesFromBits_length])]
    simp

/-- Witness for C10 (amended) on an all-zero 8×8 image with `len = 5`,
`BPC = 1`. -/
theorem stegoExtract_length_zero_pad_witness :
    stegoExtract (List.replicate 256 0) 8 8 5 1 =
      .ok (stegoExtractBytes (List.replicate 256 0) 8 8 5 1) ∧
    (stegoExtractBytes (List.replicate 256 0) 8 8 5 1).length = 5 ∧
    ∃ k, k ≤ 5 ∧
      (stegoExtractBytes (List.replicate 256 0) 8 8 5 1).drop k =
        List.replicate (5 - k) 0 :=
  stegoExtract_length_zero_pad (List.replicate 256 0) 8 8 5 1 (by decide)

set_option maxRecDepth 100000 in
set_option maxHeartbeats 2000000 in
/-- Counterexample to C10 as stated: a 5×5 image whose LSB header spells
`SNIH` and declares `length = 0`, `BPC = 1` passes header validation
(`BPC ∈ [1,8]` and `0 ≤ 5*5*3*1`), yet the extractor does not return a
zero-padded buffer without error: `new Uint32Array(25 - 32)` throws a
`RangeError` before the extraction loop runs, and decode surfaces it. -/
theorem stego_c10_counterexample :
    1 ≤ lsbByte (lsbPixelsOf (headerBitsList 0 1) 25) 64 ∧
    lsbByte (lsbPixelsOf (headerBitsList 0 1) 25) 64 ≤ 8 ∧
    readU32le [lsbByte (lsbPixelsOf (headerBitsList 0 1) 25) 32,
      lsbByte (lsbPixelsOf (headerBitsList 0 1) 25) 40,
      lsbByte (lsbPixelsOf (headerBitsList 0 1) 25) 48,
      lsbByte (lsbPixelsOf (headerBitsList 0 1) 25) 56] ≤
      5 * 5 * 3 * lsbByte (lsbPixelsOf (headerBitsList 0 1) 25) 64 ∧
    stegoExtract (lsbPixelsOf (headerBitsList 0 1) 25) 5 5
      (readU32le [lsbByte (lsbPixelsOf (headerBitsList 0 1) 25) 32,
        lsbByte (lsbPixelsOf (headerBitsList 0 1) 25) 40,
        lsbByte (lsbPixelsOf (headerBitsList 0 1) 25) 48,
        lsbByte (lsbPixelsOf (headerBitsList 0 1) 25) 56])
      (lsbByte (lsbPixelsOf (headerBitsList 0 1) 25) 64) =
      .error .typedArrayRangeError ∧
    decodeImageToFile (fun _ => none) (lsbPixelsOf (headerBitsList 0 1) 25) 5 5 =
      .error .typedArrayRangeError := by
  exact ⟨by decide, by decide, by decide, rfl, rfl⟩

theorem flatMap_congr {l : List Nat} {f g : Nat → List Nat}
    (h : ∀ a ∈ l, f a = g a) : l.flatMap f = l.flatMap g := by
  induction l with
  | nil => rfl
  | cons a l ih =>
    rw [List.flatMap_cons, List.flatMap_cons, h a (by simp),
      ih fun b hb => h b (by simp [hb])]

theorem getD_flatMap_block4 (f : Nat → List Nat) (hf : ∀ j, (f j).length = 4) :
    ∀ (count s i c : Nat), i < count → c < 4 →
      ((List.range' s count).flatMap f).getD (4 * i + c) 0 = (f (s + i)).getD c 0 := by
  intro count
  induction count with
  | zero => intro s i c hi _; omega
  | succ count ih =>
    intro s i c hi hc
    rw [List.range'_succ, List.flatMap_cons]
    cases i with
    | zero =>
      simp only [Nat.mul_zero, Nat.zero_add, Nat.add_zero]
      exact List.getD_append _ _ _ _ (by rw [hf]; omega)
    | succ i' =>
      rw [List.getD_append_right _ _ _ _ (by rw [hf]; omega)]
      have harith : 4 * (i' + 1) + c - (f s).length = 4 * i' + c := by rw [hf]; omega
      rw [harith, ih (s + 1) i' c (by omega) hc]
      have harith2 : s + 1 + i' = s + (i' + 1) := by omega
      rw [harith2]

theorem triple_block (m : List Nat) (k : Nat) :
    [m.getD 0 0, m.getD 1 0, m.getD 2 0] ++
      ((m.drop 3).take (3 * k) ++ List.replicate (3 * k - (m.length - 3)) 0) =
    m.take (3 * k + 3) ++ List.replicate ((3 * k + 3) - m.length) 0 := by
  rcases m with _ | ⟨a, m⟩
  · rw [show List.take (3 * k) (List.drop 3 ([] : List Nat)) = [] by
      rw [show List.drop 3 ([] : List Nat) = [] from rfl]; exact List.take_nil]
    show [0, 0, 0] ++ (([] : List Nat) ++ List.replicate (3 * k - (0 - 3)) 0) =
      ([] : List Nat) ++ List.replicate (3 * k + 3 - 0) 0
    rw [show (3 : Nat) * k - (0 - 3) = 3 * k by omega,
      show (3 : Nat) * k + 3 - 0 = 3 + 3 * k by omega, List.replicate_add]
    rfl
  rcases m with _ | ⟨b, m⟩
  · rw [show List.take (3 * k) (List.drop 3 [a]) = [] by
      rw [show List.drop 3 [a] = ([] : List Nat) from rfl]; exact List.take_nil]
    show [a, 0, 0] ++ (([] : List Nat) ++ List.replicate (3 * k - (1 - 3)) 0) =
      [a] ++ List.replicate (3 * k + 3 - 1) 0
    rw [show (3 : Nat) * k - (1 - 3) = 3 * k by omega,
      show (3 : Nat) * k + 3 - 1 = 2 + 3 * k by omega, List.replicate_add]
    rfl
  rcases m with _ | ⟨c, m⟩
  · rw [show List.take (3 * k) (List.drop 3 [a, b]) = [] by
      rw [show List.drop 3 [a, b] = ([] : List Nat) from rfl]; exact List.take_nil]
    show [a, b, 0] ++ (([] : List Nat) ++ List.replicate (3 * k - (2 - 3)) 0) =
      [a, b] ++ List.replicate (3 * k + 3 - 2) 0
    rw [show (3 : Nat) * k - (2 - 3) = 3 * k by omega,
      show (3 : Nat) * k + 3 - 2 = 1 + 3 * k by omega, List.replicate_add]
    rfl
  · show [a, b, c] ++ (m.take (3 * k) ++
        List.replicate (3 * k - ((m.length + 3) - 3)) 0) =
      (a :: b :: c :: m.take (3 * k)) ++
        List.replicate ((3 * k + 3) - (m.length + 3)) 0
    rw [show (3 : Nat) * k - ((m.length + 3) - 3) = 3 * k - m.length by omega,
      show (3 : Nat) * k + 3 - (m.length + 3) = 3 * k - m.length by omega]
    rfl

theorem relinearize_eq :
    ∀ (count s : Nat) (l : List Nat),
      (List.range' s count).flatMap (fun i =>
          [l.getD (3 * i) 0, l.getD (3 * i + 1) 0, l.getD (3 * i + 2) 0]) =
        (l.drop (3 * s)).take (3 * count) ++
          List.replicate (3 * count - (l.length - 3 * s)) 0 := by
  intro count
  induction count with
  | zero => intro s l; simp
  | succ count ih =>
    intro s l
    rw [List.range'_succ, List.flatMap_cons, ih (s + 1) l]
    have hg : ∀ c, l.getD (3 * s + c) 0 = (l.drop (3 * s)).getD c 0 := by
      intro c
      rw [List.getD_eq_getElem?_getD, List.getD_eq_getElem?_getD, List.getElem?_drop]
    have h0 : l.getD (3 * s) 0 = (l.drop (3 * s)).getD 0 0 := by
      have := hg 0
      simpa using this
    rw [h0, hg 1, hg 2]
    have hd : l.drop (3 * (s + 1)) = (l.drop (3 * s)).drop 3 := by
      rw [List.drop_drop, show 3 * s + 3 = 3 * (s + 1) by ring]
    have hl : l.length - 3 * (s + 1) = (l.drop (3 * s)).length - 3 := by
      rw [List.length_drop]
      omega
    have hm : l.length - 3 * s = (l.drop (3 * s)).length := (List.length_drop _ _).symm
    rw [hd, hl, hm, show 3 * (count + 1) = 3 * count + 3 by omega]
    exact triple_block (l.drop (3 * s)) count

theorem createPayload_length (data mime name : List Nat) :
    (createPayload data mime name).length =
      10 + mime.length + name.length + data.length := by
  simp [createPayload, u32le, MAGIC_SNIC]
  omega

theorem readU32le_u32le (n : Nat) : readU32le (u32le n) = n % 4294967296 := by
  simp [readU32le, u32le, List.getD]
  omega

theorem drop_peel {B X Y : List Nat} {k j : Nat} (h : B.drop k = X ++ Y)
    (hX : X.length = j) : B.drop (k + j) = Y := by
  rw [← List.drop_drop, h, List.drop_left' hX]

/-- Shared inverse lemma: parsing a freshly framed payload, possibly followed
by the zero padding the noise codec adds, recovers the original triple. -/
theorem parsePayload_createPayload (dec : List Nat → Option (List Nat))
    (data mime name : List Nat) (z : Nat)
    (hm : mime.length ≤ 255) (hn : name.length ≤ 255)
    (hd : data.length < 4294967296) :
    parsePayload dec (createPayload data mime name ++ List.replicate z 0) =
      .ok ⟨data, mime, name⟩ := by
  have hml : mime.length % 256 = mime.length := Nat.mod_eq_of_lt (by omega)
  have hnl : name.length % 256 = name.length := Nat.mod_eq_of_lt (by omega)
  set B := createPayload data mime name ++ List.replicate z 0 with hB
  have hB' : B = MAGIC_SNIC ++ (u32le data.length ++ ([mime.length % 256] ++
      (mime ++ ([name.length % 256] ++ (name ++ (data ++ List.replicate z 0)))))) := by
    rw [hB, createPayload]
    simp [List.append_assoc]
  have hlen : B.length = 10 + mime.length + name.length + data.length + z := by
    rw [hB, List.length_append, createPayload_length, List.length_replicate]
  have hd0 : B.drop 0 = MAGIC_SNIC ++ (u32le data.length ++ ([mime.length % 256] ++
      (mime ++ ([name.length % 256] ++ (name ++ (data ++ List.replicate z 0)))))) := by
    rw [List.drop_zero, hB']
  have hd4 := drop_peel hd0 (show MAGIC_SNIC.length = 4 from rfl)
  have hd8 := drop_peel hd4 (show (u32le data.length).length = 4 by simp [u32le])
  have hd9 := drop_peel hd8 (show [mime.length % 256].length = 1 from rfl)
  have hd9m := drop_peel hd9 (rfl : mime.length = mime.length)
  have hd10m := drop_peel hd9m (show [name.length % 256].length = 1 from rfl)
  have hd10mn := drop_peel hd10m (rfl : name.length = name.length)
  have htake4 : B.take 4 = MAGIC_SNIC := by
    rw [hB']
    exact List.take_left' rfl
  have hu32 : (B.drop 4).take 4 = u32le data.length := by
    rw [hd4]
    exact List.take_left' (by simp [u32le])
  have hsize : readU32le ((B.drop 4).take 4) = data.length := by
    rw [hu32, readU32le_u32le, Nat.mod_eq_of_lt hd]
  have hgd8 : B.getD 8 0 = mime.length := by
    rw [List.getD_eq_getElem?_getD, show (8 : Nat) = 8 + 0 by rfl,
      ← List.getElem?_drop, hd8]
    simp [hml]
  have hmime : (B.drop 9).take (mime.length) = mime := by
    have : (9 : Nat) = 8 + 1 := rfl
    rw [this, hd9]
    exact List.take_left' rfl
  have hgd9m : B.getD (9 + mime.length) 0 = name.length := by
    rw [List.getD_eq_getElem?_getD, show 9 + mime.length = (8 + 1) + mime.length + 0 by omega,
      ← List.getElem?_drop, hd9m]
    simp [hnl]
  have hname : (B.drop (10 + mime.length)).take (name.length) = name := by
    rw [show 10 + mime.length = (8 + 1) + mime.length + 1 by omega, hd10m]
    exact List.take_left' rfl
  have hdata : (B.drop (10 + mime.length + name.length)).take data.length = data := by
    rw [show 10 + mime.length + name.length = ((8 + 1) + mime.length + 1) + name.length by omega,
      hd10mn]
    exact List.take_left' rfl
  have hsnic : B.take 4 = MAGIC_SNIC := htake4
  have hnsniz : ¬(B.take 4 = MAGIC_SNIZ) := by
    rw [htake4]
    simp [MAGIC_SNIC, MAGIC_SNIZ]
  rw [parsePayload_eq]
  rw [if_neg (by rw [htake4]; simp [MAGIC_SNIC, MAGIC_SNIZ]),
    if_neg (by omega), if_neg (by omega), if_neg (by rw [hgd8]; omega),
    if_neg (by rw [hgd8]; omega), if_neg (by rw [hgd8, hgd9m]; omega),
    if_neg hnsniz]
  rw [hgd8, hgd9m, hsize, hmime, hname, hdata]

theorem encodeFileToImage_eq (data mime name : List Nat) :
    encodeFileToImage data mime name =
      (ceilSqrtN (ceilDiv (createPayload data mime name).length 3),
       ceilDiv (ceilDiv (createPayload data mime name).length 3)
         (ceilSqrtN (ceilDiv (createPayload data mime name).length 3)),
       noisePixels (createPayload data mime name)
         (ceilSqrtN (ceilDiv (createPayload data mime name).length 3))
         (ceilDiv (ceilDiv (createPayload data mime name).length 3)
           (ceilSqrtN (ceilDiv (createPayload data mime name).length 3)))) :=
  rfl

theorem createPayload_assoc (data mime name : List Nat) :
    createPayload data mime name = MAGIC_SNIC ++ (u32le data.length ++
      ([mime.length % 256] ++ (mime ++ ([name.length % 256] ++ (name ++ data))))) := by
  simp [createPayload, List.append_assoc]

theorem createPayload_getD_magic (data mime name : List Nat) (k : Nat) (hk : k < 4) :
    (createPayload data mime name).getD k 0 = MAGIC_SNIC.getD k 0 := by
  rw [createPayload_assoc]
  exact List.getD_append _ _ _ _ (by simpa [MAGIC_SNIC] using hk)

/-- Claim C2: for every byte buffer up to 10 MB and mime/name up to 255
bytes, decoding the noise image produced by `encodeFileToImage` returns
exactly the original data, mime and name. -/
theorem noise_roundtrip (decompress : List Nat → Option (List Nat))
    (data mime name : List Nat)
    (hdlen : data.length ≤ 10485760)
    (hdb : ∀ b ∈ data, b < 256) (hmb : ∀ b ∈ mime, b < 256)
    (hnb : ∀ b ∈ name, b < 256)
    (hm : mime.length ≤ 255) (hn : name.length ≤ 255) :
    decodeImageToFile decompress (encodeFileToImage data mime name).2.2
        (encodeFileToImage data mime name).1 (encodeFileToImage data mime name).2.1 =
      .ok ⟨data, mime, name⟩ := by
  rw [encodeFileToImage_eq]
  dsimp only
  have hL : (createPayload data mime name).length =
      10 + mime.length + name.length + data.length :=
    createPayload_length data mime name
  have ht1 : 1 ≤ ceilDiv (createPayload data mime name).length 3 := by
    by_contra hc
    have := (ceilDiv_le_iff (a := (createPayload data mime name).length)
      (k := 0) (by omega : (0 : Nat) < 3)).mp (by omega)
    omega
  have ht3 : (createPayload data mime name).length ≤
      3 * ceilDiv (createPayload data mime name).length 3 :=
    le_mul_ceilDiv (by omega)
  have hwpos : 0 < ceilSqrtN (ceilDiv (createPayload data mime name).length 3) := by
    by_contra hc
    have hsq := ceilSqrtN_sq_ge (ceilDiv (createPayload data mime name).length 3)
    have h0 : ceilSqrtN (ceilDiv (createPayload data mime name).length 3) = 0 := by omega
    rw [h0] at hsq
    omega
  have hwh : ceilDiv (createPayload data mime name).length 3 ≤
      ceilSqrtN (ceilDiv (createPayload data mime name).length 3) *
        ceilDiv (ceilDiv (createPayload data mime name).length 3)
          (ceilSqrtN (ceilDiv (createPayload data mime name).length 3)) :=
    le_mul_ceilDiv hwpos
  have hfit : (createPayload data mime name).length ≤
      3 * (ceilSqrtN (ceilDiv (createPayload data mime name).length 3) *
        ceilDiv (ceilDiv (createPayload data mime name).length 3)
          (ceilSqrtN (ceilDiv (createPayload data mime name).length 3))) := by
    calc (createPayload data mime name).length
        ≤ 3 * ceilDiv (createPayload data mime name).length 3 := ht3
      _ ≤ _ := Nat.mul_le_mul_left 3 hwh
  set payload := createPayload data mime name with hpay
  set w := ceilSqrtN (ceilDiv payload.length 3) with hwdef
  set h := ceilDiv (ceilDiv payload.length 3) w with hhdef
  have hwh4 : 4 ≤ w * h := by
    have : 4 ≤ ceilDiv payload.length 3 := by
      by_contra hc
      have := (ceilDiv_le_iff (a := payload.length) (k := 3)
        (by omega : (0 : Nat) < 3)).mp (by omega)
      omega
    omega
  have hblock := getD_flatMap_block4
    (fun j => [payload.getD (3 * j) 0, payload.getD (3 * j + 1) 0,
      payload.getD (3 * j + 2) 0, 255]) (fun _ => rfl) (w * h) 0
  have hnp : noisePixels payload w h = (List.range' 0 (w * h)).flatMap
      (fun j => [payload.getD (3 * j) 0, payload.getD (3 * j + 1) 0,
        payload.getD (3 * j + 2) 0, 255]) := by
    rw [noisePixels, List.range_eq_range']
  have hpx : ∀ i c, i < w * h → c < 4 →
      pxAt (noisePixels payload w h) (4 * i + c) =
        [payload.getD (3 * i) 0, payload.getD (3 * i + 1) 0,
          payload.getD (3 * i + 2) 0, 255].getD c 0 := by
    intro i c hi hc
    rw [pxAt, hnp]
    have := hblock i c hi hc
    simpa using this
  have hprobe : [pxAt (noisePixels payload w h) 0, pxAt (noisePixels payload w h) 1,
      pxAt (noisePixels payload w h) 2, pxAt (noisePixels payload w h) 4] =
      MAGIC_SNIC := by
    have h0 : pxAt (noisePixels payload w h) 0 = payload.getD 0 0 := by
      have := hpx 0 0 (by omega) (by omega)
      simpa using this
    have h1 : pxAt (noisePixels payload w h) 1 = payload.getD 1 0 := by
      have := hpx 0 1 (by omega) (by omega)
      simpa using this
    have h2 : pxAt (noisePixels payload w h) 2 = payload.getD 2 0 := by
      have := hpx 0 2 (by omega) (by omega)
      simpa using this
    have h4 : pxAt (noisePixels payload w h) 4 = payload.getD 3 0 := by
      have := hpx 1 0 (by omega) (by omega)
      simpa using this
    rw [h0, h1, h2, h4, hpay,
      createPayload_getD_magic data mime name 0 (by omega),
      createPayload_getD_magic data mime name 1 (by omega),
      createPayload_getD_magic data mime name 2 (by omega),
      createPayload_getD_magic data mime name 3 (by omega)]
    rfl
  rw [decodeImageToFile_eq, if_pos (Or.inl hprobe), decodeStandardImage]
  have hrelin : ((List.range (w * h)).flatMap fun i =>
      [pxAt (noisePixels payload w h) (4 * i),
       pxAt (noisePixels payload w h) (4 * i + 1),
       pxAt (noisePixels payload w h) (4 * i + 2)]) =
      payload ++ List.replicate (3 * (w * h) - payload.length) 0 := by
    rw [List.range_eq_range']
    rw [flatMap_congr (g := fun i => [payload.getD (3 * i) 0,
      payload.getD (3 * i + 1) 0, payload.getD (3 * i + 2) 0]) ?_]
    · rw [relinearize_eq (w * h) 0 payload]
      simp only [Nat.mul_zero, List.drop_zero, Nat.sub_zero]
      rw [List.take_of_length_le hfit]
    · intro i hi
      have hilt : i < w * h := by
        have := List.mem_range'_1.mp hi
        omega
      have hc0 : pxAt (noisePixels payload w h) (4 * i) = payload.getD (3 * i) 0 := by
        have := hpx i 0 hilt (by omega)
        simpa using this
      have hc1 := hpx i 1 hilt (by omega)
      have hc2 := hpx i 2 hilt (by omega)
      rw [hc0, hc1, hc2]
      rfl
  rw [hrelin]
  exact parsePayload_createPayload decompress data mime name _ hm hn (by omega)

/-- Witness for C2 at `data = [1,2,3]`, mime `"a"`, name `"b"`. -/
theorem noise_roundtrip_witness :
    decodeImageToFile (fun _ => none) (encodeFileToImage [1, 2, 3] [97] [98]).2.2
        (encodeFileToImage [1, 2, 3] [97] [98]).1
        (encodeFileToImage [1, 2, 3] [97] [98]).2.1 =
      .ok ⟨[1, 2, 3], [97], [98]⟩ :=
  noise_roundtrip (fun _ => none) [1, 2, 3] [97] [98] (by decide)
    (by decide) (by decide) (by decide) (by decide) (by decide)

theorem getD_set_self {l : List Nat} {i v : Nat} (h : i < l.length) :
    (l.set i v).getD i 0 = v := by
  rw [List.getD_eq_getElem?_getD, List.getElem?_set]
  simp [h]

theorem getD_set_ne {l : List Nat} {i j v : Nat} (h : i ≠ j) :
    (l.set i v).getD j 0 = l.getD j 0 := by
  rw [List.getD_eq_getElem?_getD, List.getElem?_set_ne h, ← List.getD_eq_getElem?_getD]

theorem foldl_set_length (pos : Nat → Nat) (v : Nat → Nat → Nat) :
    ∀ (ks : List Nat) (px : List Nat),
      (ks.foldl (fun p k => p.set (pos k) (v k (p.getD (pos k) 0))) px).length =
        px.length := by
  intro ks
  induction ks with
  | nil => intro px; rfl
  | cons a ks ih =>
    intro px
    rw [List.foldl_cons, ih]
    simp

theorem foldl_set_getD_notin (pos : Nat → Nat) (v : Nat → Nat → Nat) :
    ∀ (ks : List Nat) (px : List Nat) (q : Nat), (∀ k ∈ ks, pos k ≠ q) →
      (ks.foldl (fun p k => p.set (pos k) (v k (p.getD (pos k) 0))) px).getD q 0 =
        px.getD q 0 := by
  intro ks
  induction ks with
  | nil => intro px q _; rfl
  | cons a ks ih =>
    intro px q hq
    rw [List.foldl_cons, ih _ _ (fun k hk => hq k (by simp [hk])),
      getD_set_ne (hq a (by simp))]

theorem foldl_set_getD_mem (pos : Nat → Nat) (v : Nat → Nat → Nat) :
    ∀ (ks : List Nat) (px : List Nat), (ks.map pos).Nodup →
      ∀ k ∈ ks, pos k < px.length →
      (ks.foldl (fun p k' => p.set (pos k') (v k' (p.getD (pos k') 0))) px).getD
          (pos k) 0 = v k (px.getD (pos k) 0) := by
  intro ks
  induction ks with
  | nil => intro px _ k hk; simp at hk
  | cons a ks ih =>
    intro px hnd k hk hlt
    rw [List.map_cons, List.nodup_cons] at hnd
    rcases List.mem_cons.mp hk with rfl | hk'
    · rw [List.foldl_cons,
        foldl_set_getD_notin pos v ks _ (pos k)
          (fun k' hk' heq => hnd.1 (by rw [← heq]; exact List.mem_map_of_mem pos hk'))]
      exact getD_set_self hlt
    · rw [List.foldl_cons,
        ih _ hnd.2 k hk' (by simpa using hlt),
        getD_set_ne (fun heq => hnd.1 (by rw [heq]; exact List.mem_map_of_mem pos hk'))]

theorem natBits_lt_two (w n : Nat) : ∀ b ∈ natBits w n, b < 2 := by
  intro b hb
  rw [natBits] at hb
  obtain ⟨i, _, rfl⟩ := List.mem_map.mp hb
  have h := Nat.and_one_is_mod (n >>> i)
  omega

theorem natBits_succ (w n : Nat) :
    natBits (w + 1) n = (n &&& 1) :: natBits w (n >>> 1) := by
  rw [natBits, List.range_succ_eq_map, List.map_cons, List.map_map,
    Nat.shiftRight_zero, natBits]
  congr 1
  apply List.map_congr_left
  intro b _
  show (n >>> (b + 1)) &&& 1 = ((n >>> 1) >>> b) &&& 1
  rw [← Nat.shiftRight_add, Nat.add_comm 1 b]

theorem bitsToNat_cons (b : Nat) (bs : List Nat) :
    bitsToNat (b :: bs) = b + 2 * bitsToNat bs := rfl

theorem bitsToNat_natBits (w : Nat) : ∀ n, bitsToNat (natBits w n) = n % 2 ^ w := by
  induction w with
  | zero => intro n; simp [natBits, bitsToNat, Nat.mod_one]
  | succ w ih =>
    intro n
    rw [natBits_succ, bitsToNat_cons, ih]
    have h1 : n &&& 1 = n % 2 := Nat.and_one_is_mod n
    have h2 : n >>> 1 = n / 2 := by
      rw [Nat.shiftRight_eq_div_pow]
    rw [h1, h2, Nat.pow_succ, Nat.mul_comm (2 ^ w) 2, Nat.mod_mul]

theorem natBits_mod (w n : Nat) : natBits w (n % 2 ^ w) = natBits w n := by
  rw [natBits, natBits]
  apply List.map_congr_left
  intro b hb
  have hblt : b < w := List.mem_range.mp hb
  rw [Nat.and_one_is_mod, Nat.and_one_is_mod, Nat.shiftRight_eq_div_pow,
    Nat.shiftRight_eq_div_pow]
  rw [show 2 ^ w = 2 ^ b * 2 ^ (w - b) by rw [← Nat.pow_add]; congr 1; omega]
  rw [Nat.mod_mul_right_div_self]
  exact Nat.mod_mod_of_dvd _ (dvd_pow_self 2 (by omega))

theorem bitsToNat_lt (bs : List Nat) (h : ∀ b ∈ bs, b < 2) :
    bitsToNat bs < 2 ^ bs.length := by
  induction bs with
  | nil => simp [bitsToNat]
  | cons b bs ih =>
    rw [bitsToNat_cons, List.length_cons, Nat.pow_succ]
    have hb := h b (by simp)
    have hr := ih (fun x hx => h x (by simp [hx]))
    omega

theorem natBits_zero_val (w : Nat) : natBits w 0 = List.replicate w 0 := by
  rw [natBits]
  have : ∀ b ∈ List.range w, (0 >>> b) &&& 1 = 0 := by
    intro b _
    simp
  rw [List.map_congr_left this, List.map_const', List.length_range]

theorem natBits_bitsToNat (w : Nat) : ∀ (bs : List Nat), (∀ b ∈ bs, b < 2) →
    bs.length ≤ w →
    natBits w (bitsToNat bs) = bs ++ List.replicate (w - bs.length) 0 := by
  induction w with
  | zero =>
    intro bs _ hlen
    rw [show bs = [] by cases bs <;> simp_all]
    simp [natBits, bitsToNat]
  | succ w ih =>
    intro bs hb hlen
    cases bs with
    | nil => simpa [bitsToNat] using natBits_zero_val (w + 1)
    | cons b bs =>
      rw [natBits_succ, bitsToNat_cons]
      have hb0 : b < 2 := hb b (by simp)
      have h1 : (b + 2 * bitsToNat bs) &&& 1 = b := by
        rw [Nat.and_one_is_mod]
        omega
      have h2 : (b + 2 * bitsToNat bs) >>> 1 = bitsToNat bs := by
        rw [Nat.shiftRight_eq_div_pow]
        norm_num
        omega
      rw [h1, h2, ih bs (fun x hx => hb x (by simp [hx])) (by simpa using hlen)]
      simp

theorem map_getD_range (l : List Nat) :
    (List.range l.length).map (fun i => l.getD i 0) = l := by
  apply List.ext_getElem (by simp)
  intro n h1 h2
  rw [List.getElem_map, List.getElem_range]
  exact List.getD_eq_getElem l 0 h2

theorem mem_channelSlots {sh : List Nat} {x : Nat} :
    x ∈ channelSlots sh ↔
      ∃ idx ∈ sh, x = 4 * idx ∨ x = 4 * idx + 1 ∨ x = 4 * idx + 2 := by
  rw [channelSlots, List.mem_flatMap]
  constructor
  · rintro ⟨idx, hidx, hx⟩
    exact ⟨idx, hidx, by simpa using hx⟩
  · rintro ⟨idx, hidx, hx⟩
    exact ⟨idx, hidx, by simpa using hx⟩

theorem channelSlots_length (sh : List Nat) :
    (channelSlots sh).length = 3 * sh.length := by
  induction sh with
  | nil => rfl
  | cons a sh ih =>
    rw [channelSlots, List.flatMap_cons, List.length_append, ← channelSlots, ih]
    simp
    omega

theorem channelSlots_nodup (sh : List Nat) (h : sh.Nodup) :
    (channelSlots sh).Nodup := by
  induction sh with
  | nil => exact List.nodup_nil
  | cons a sh ih =>
    rw [List.nodup_cons] at h
    rw [channelSlots, List.flatMap_cons, ← channelSlots]
    rw [List.nodup_append]
    refine ⟨by simp, ih h.2, ?_⟩
    intro x hx hx'
    obtain ⟨idx, hidx, hcase⟩ := mem_channelSlots.mp hx'
    have hne : idx ≠ a := fun heq => h.1 (heq ▸ hidx)
    simp at hx
    omega

theorem channelSlots_lb (sh : List Nat) (h : ∀ i ∈ sh, 32 ≤ i) :
    ∀ s ∈ channelSlots sh, 128 ≤ s := by
  intro s hs
  obtain ⟨idx, hidx, hcase⟩ := mem_channelSlots.mp hs
  have := h idx hidx
  omega

theorem extractBits_eq_natBits (px slots : List Nat) (bpc : Nat) :
    extractBits px slots bpc = slots.flatMap (fun s => natBits bpc (pxAt px s)) :=
  rfl

theorem flatMap_eq_range (f : Nat → List Nat) :
    ∀ (sl : List Nat) (g : Nat → List Nat),
      (∀ q, q < sl.length → f (sl.getD q 0) = g q) →
      sl.flatMap f = (List.range sl.length).flatMap g := by
  intro sl
  induction sl with
  | nil => intro g _; rfl
  | cons s sl ih =>
    intro g h
    rw [List.flatMap_cons, List.length_cons, List.range_succ_eq_map,
      List.flatMap_cons, List.flatMap_map,
      ← ih (fun a => g (Nat.succ a)) (fun q hq => h (q + 1) (by simpa using hq))]
    congr 1
    exact h 0 (by simp)

theorem opapWrite_spec (orig bits bpc : Nat) (ho : orig ≤ 255) (h1 : 1 ≤ bpc)
    (h7 : bpc ≤ 7) (hbits : bits < 2 ^ bpc) :
    opapWrite orig bits bpc % 2 ^ bpc = bits ∧ opapWrite orig bits bpc ≤ 255 := by
  rw [opapWrite, substLow_eq orig bits bpc hbits, if_pos (by omega), applyOPAP,
    clamp255]
  interval_cases bpc <;> split_ifs <;> constructor <;> omega

theorem block_pad (m : List Nat) (w k : Nat) :
    (m.take w ++ List.replicate (w - m.length) 0) ++
      ((m.drop w).take (k * w) ++ List.replicate (k * w - (m.length - w)) 0) =
    m.take (k * w + w) ++ List.replicate ((k * w + w) - m.length) 0 := by
  rcases le_or_lt m.length w with hle | hlt
  · rw [List.take_of_length_le hle, List.drop_eq_nil_of_le hle, List.take_nil,
      List.take_of_length_le (by omega), show m.length - w = 0 by omega,
      Nat.sub_zero, List.nil_append, List.append_assoc, ← List.replicate_add,
      show (w - m.length) + k * w = (k * w + w) - m.length by omega]
  · rw [show w - m.length = 0 by omega, List.replicate_zero, List.append_nil,
      show k * w + w = w + k * w by omega, List.take_add,
      show (w + k * w) - m.length = k * w - (m.length - w) by omega,
      List.append_assoc]

theorem chunks_flatten (bpc : Nat) (bl : List Nat) (hb : ∀ b ∈ bl, b < 2) :
    ∀ (k s : Nat),
      ((List.range' s k).flatMap fun q => natBits bpc (chunkAt bl bpc q)) =
        (bl.drop (s * bpc)).take (k * bpc) ++
          List.replicate (k * bpc - (bl.length - s * bpc)) 0 := by
  intro k
  induction k with
  | zero => intro s; simp
  | succ k ih =>
    intro s
    rw [List.range'_succ, List.flatMap_cons, ih (s + 1)]
    have hchunk : natBits bpc (chunkAt bl bpc s) =
        (bl.drop (s * bpc)).take bpc ++
          List.replicate (bpc - (bl.drop (s * bpc)).length) 0 := by
      rw [chunkAt, natBits_bitsToNat bpc _
        (fun b hbm => hb b ((List.drop_sublist _ _).subset
          ((List.take_sublist _ _).subset hbm)))
        (by rw [List.length_take]; omega)]
      congr 2
      rw [List.length_take]
      omega
    rw [hchunk]
    have hd : bl.drop ((s + 1) * bpc) = (bl.drop (s * bpc)).drop bpc := by
      rw [List.drop_drop, show s * bpc + bpc = (s + 1) * bpc by ring]
    have hl : bl.length - (s + 1) * bpc = (bl.drop (s * bpc)).length - bpc := by
      rw [List.length_drop]
      have : (s + 1) * bpc = s * bpc + bpc := by ring
      omega
    have hm : bl.length - s * bpc = (bl.drop (s * bpc)).length :=
      (List.length_drop _ _).symm
    rw [hd, hl, hm, show (k + 1) * bpc = k * bpc + bpc by ring]
    exact block_pad (bl.drop (s * bpc)) bpc k

theorem bytesFromBits_payload : ∀ (k : Nat) (payload bits : List Nat),
    (∀ b ∈ payload, b < 256) → k ≤ payload.length →
    bits.take (8 * k) = (payloadBitsOf payload).take (8 * k) →
    bytesFromBits k bits = payload.take k := by
  intro k
  induction k with
  | zero => intro payload bits _ _ _; rfl
  | succ k ih =>
    intro payload bits hp hk htake
    cases payload with
    | nil => simp at hk
    | cons p rest =>
      rw [bytesFromBits]
      have hpb : payloadBitsOf (p :: rest) = natBits 8 p ++ payloadBitsOf rest := by
        rw [payloadBitsOf, List.flatMap_cons, payloadBitsOf]
      have hlen8 : (natBits 8 p).length = 8 := by simp [natBits]
      have h8 : bits.take 8 = natBits 8 p := by
        have hc := congrArg (List.take 8) htake
        rw [List.take_take, List.take_take,
          show (8 : Nat) ⊓ (8 * (k + 1)) = 8 by omega, hpb,
          List.take_append_of_le_length (by rw [hlen8]),
          List.take_of_length_le (Nat.le_of_eq hlen8)] at hc
        exact hc
      have hdrop : (bits.drop 8).take (8 * k) =
          (payloadBitsOf rest).take (8 * k) := by
        have hc := congrArg (List.drop 8) htake
        rw [List.drop_take, List.drop_take, show 8 * (k + 1) - 8 = 8 * k by omega,
          hpb, List.drop_left' hlen8] at hc
        exact hc
      rw [h8, bitsToNat_natBits, Nat.mod_eq_of_lt
          (by have := hp p (by simp); omega),
        ih rest (bits.drop 8) (fun b hb => hp b (by simp [hb]))
          (by simpa using hk) hdrop]
      rfl

theorem natBits_length (w n : Nat) : (natBits w n).length = w := by
  simp [natBits]

theorem natBits_getD (w n k : Nat) (h : k < w) :
    (natBits w n).getD k 0 = (n >>> k) &&& 1 := by
  rw [natBits, List.getD_eq_getElem?_getD, List.getElem?_map,
    List.getElem?_range h]
  rfl

theorem payloadBitsOf_length (l : List Nat) :
    (payloadBitsOf l).length = 8 * l.length := by
  induction l with
  | nil => rfl
  | cons p l ih =>
    rw [payloadBitsOf, List.flatMap_cons, List.length_append, ← payloadBitsOf, ih,
      natBits_length]
    simp
    omega

theorem payloadBitsOf_lt_two (l : List Nat) : ∀ b ∈ payloadBitsOf l, b < 2 := by
  intro b hb
  rw [payloadBitsOf, List.mem_flatMap] at hb
  obtain ⟨p, _, hbp⟩ := hb
  exact natBits_lt_two 8 p b hbp

theorem getD_flatMap_const_len (f : Nat → List Nat) (w : Nat)
    (hf : ∀ x, (f x).length = w) :
    ∀ (l : List Nat) (i b : Nat), i < l.length → b < w →
      (l.flatMap f).getD (w * i + b) 0 = (f (l.getD i 0)).getD b 0 := by
  intro l
  induction l with
  | nil => intro i b hi _; simp at hi
  | cons a l ih =>
    intro i b hi hb
    rw [List.flatMap_cons]
    cases i with
    | zero =>
      simp only [Nat.mul_zero, Nat.zero_add]
      rw [List.getD_append _ _ _ _ (by rw [hf]; omega)]
      rfl
    | succ i' =>
      rw [List.getD_append_right _ _ _ _ (by rw [hf]; nlinarith)]
      have harith : w * (i' + 1) + b - (f a).length = w * i' + b := by
        rw [hf]; ring_nf; omega
      rw [harith, ih i' b (by simpa using hi) hb]
      rfl

theorem extractBits_length (px : List Nat) (bpc : Nat) :
    ∀ sl : List Nat, (extractBits px sl bpc).length = sl.length * bpc := by
  intro sl
  induction sl with
  | nil => simp [extractBits]
  | cons s sl ih =>
    rw [extractBits, List.flatMap_cons, List.length_append, ← extractBits, ih]
    simp
    ring

theorem forceAlpha_length (cover : List Nat) :
    (forceAlpha cover).length = cover.length := by
  simp [forceAlpha]

theorem forceAlpha_getD (cover : List Nat) (i : Nat) (h : i < cover.length) :
    (forceAlpha cover).getD i 0 =
      if i % 4 = 3 then 255 else cover.getD i 0 := by
  rw [forceAlpha, List.getD_eq_getElem?_getD, List.getElem?_map,
    List.getElem?_range h]
  rfl

theorem headerBitsList_length (len bpc : Nat) :
    (headerBitsList len bpc).length = 72 := by
  rw [headerBitsList, MAGIC_SNIH]
  simp [List.flatMap_cons, natBits_length]

theorem headerBitsList_lt_two (len bpc : Nat) :
    ∀ b ∈ headerBitsList len bpc, b < 2 := by
  intro b hb
  rw [headerBitsList] at hb
  rcases List.mem_append.mp hb with hb' | hb'
  · rcases List.mem_append.mp hb' with hb'' | hb''
    · obtain ⟨p, _, hbp⟩ := List.mem_flatMap.mp hb''
      exact natBits_lt_two 8 p b hbp
    · exact natBits_lt_two 32 len b hb''
  · exact natBits_lt_two 8 bpc b hb'

theorem headerPos_inj : ∀ k k', headerPos k = headerPos k' → k = k' := by
  intro k k'
  unfold headerPos
  omega

theorem headerPos_lt (k : Nat) (h : k < 72) : headerPos k < 128 := by
  unfold headerPos
  omega

theorem getD_mem {l : List Nat} {i : Nat} (h : i < l.length) : l.getD i 0 ∈ l := by
  rw [List.getD_eq_getElem l 0 h]
  exact List.getElem_mem h

theorem plannerNewDims_ge (T W H t : Nat) :
    W ≤ (plannerNewDims T W H t).1 ∧ H ≤ (plannerNewDims T W H t).2 := by
  rw [plannerNewDims_eq]
  split_ifs with h1 h2
  · exact ⟨le_max_left _ _, le_max_left _ _⟩
  · constructor <;> (unfold ceilDiv; simp; omega)
  · exact ⟨le_rfl, le_rfl⟩

theorem writeHeader_as_fold (px hb : List Nat) :
    writeHeader px hb =
      (List.range hb.length).foldl
        (fun p k => p.set (headerPos k)
          ((fun k old => old / 2 * 2 + hb.getD k 0) k (p.getD (headerPos k) 0))) px :=
  rfl

theorem embedPayload_as_fold (pixels shuffled payload : List Nat) (bpc : Nat) :
    embedPayload pixels shuffled payload bpc =
      (List.range
          ((channelSlots shuffled).take (ceilDiv (8 * payload.length) bpc)).length).foldl
        (fun p q => p.set
          (((channelSlots shuffled).take (ceilDiv (8 * payload.length) bpc)).getD q 0)
          ((fun q old => opapWrite old (chunkAt (payloadBitsOf payload) bpc q) bpc) q
            (p.getD
              (((channelSlots shuffled).take
                (ceilDiv (8 * payload.length) bpc)).getD q 0) 0)))
        pixels :=
  rfl

theorem stegoEmbed_eq (cover : List Nat) (w h : Nat) (payload : List Nat) (bpc : Nat) :
    stegoEmbed cover w h payload bpc =
      embedPayload (writeHeader (forceAlpha cover) (headerBitsList payload.length bpc))
        (getShuffledIndices (w * h) RESERVED_HEADER_PIXELS) payload bpc :=
  rfl

theorem stegoExtractBytes_eq (pixels : List Nat) (w h len bpc : Nat) :
    stegoExtractBytes pixels w h len bpc =
      bytesFromBits
        (min len ((extractBits pixels
          (channelSlots (getShuffledIndices (w * h) RESERVED_HEADER_PIXELS)) bpc).length / 8))
        (extractBits pixels
          (channelSlots (getShuffledIndices (w * h) RESERVED_HEADER_PIXELS)) bpc) ++
      List.replicate (len - min len ((extractBits pixels
        (channelSlots (getShuffledIndices (w * h) RESERVED_HEADER_PIXELS)) bpc).length / 8)) 0 :=
  rfl

/-- The prefix of the shuffled channel walk the embedder actually writes:
`⌈8·L / bpc⌉` channels. -/
def stegoSlots (nW nH L bpc : Nat) : List Nat :=
  (channelSlots (getShuffledIndices (nW * nH) RESERVED_HEADER_PIXELS)).take
    (ceilDiv (8 * L) bpc)

/-- The pixel buffer after alpha forcing and header writing, before the
scattered payload walk. -/
def stegoBase (cover : List Nat) (L bpc : Nat) : List Nat :=
  writeHeader (forceAlpha cover) (headerBitsList L bpc)

theorem stegoEmbed_as_fold (cover : List Nat) (nW nH : Nat) (payload : List Nat)
    (bpc : Nat) :
    stegoEmbed cover nW nH payload bpc =
      (List.range (stegoSlots nW nH payload.length bpc).length).foldl
        (fun p q => p.set ((stegoSlots nW nH payload.length bpc).getD q 0)
          ((fun q old => opapWrite old (chunkAt (payloadBitsOf payload) bpc q) bpc) q
            (p.getD ((stegoSlots nW nH payload.length bpc).getD q 0) 0)))
        (stegoBase cover payload.length bpc) :=
  rfl

/-- Every byte of a freshly framed payload is a byte. -/
theorem createPayload_lt (data mime name : List Nat)
    (hd : ∀ b ∈ data, b < 256) (hm : ∀ b ∈ mime, b < 256)
    (hn : ∀ b ∈ name, b < 256) :
    ∀ b ∈ createPayload data mime name, b < 256 := by
  intro b hb
  rw [createPayload] at hb
  simp only [List.mem_append] at hb
  rcases hb with ((((((h | h) | h) | h) | h) | h) | h)
  · rw [MAGIC_SNIC] at h
    simp at h
    rcases h with h | h | h | h <;> omega
  · rw [u32le] at h
    simp at h
    rcases h with h | h | h | h <;> omega
  · simp at h
    omega
  · exact hm b h
  · simp at h
    omega
  · exact hn b h
  · exact hd b h

/-- What `stegoEmbed` leaves in the buffer: the 72 header bits in the linear
LSB stream, and the payload bit chunks in the low `bpc` bits of the written
shuffled channels. -/
theorem stegoEmbed_getD (cover : List Nat) (nW nH : Nat) (payload : List Nat)
    (bpc : Nat)
    (hcov : cover.length = 4 * (nW * nH)) (hcv : ∀ v ∈ cover, v ≤ 255)
    (hb1 : 1 ≤ bpc) (hb7 : bpc ≤ 7) (hN : 32 < nW * nH)
    (hcap : 8 * payload.length ≤ 3 * bpc * (nW * nH - 32)) :
    (∀ k, k < 72 → lsbBit (stegoEmbed cover nW nH payload bpc) k =
      (headerBitsList payload.length bpc).getD k 0) ∧
    (∀ q, q < ceilDiv (8 * payload.length) bpc →
      pxAt (stegoEmbed cover nW nH payload bpc)
        ((stegoSlots nW nH payload.length bpc).getD q 0) % 2 ^ bpc =
      chunkAt (payloadBitsOf payload) bpc q) := by
  have hperm : (getShuffledIndices (nW * nH) RESERVED_HEADER_PIXELS).Perm
      (List.range' 32 (nW * nH - 32)) :=
    getShuffledIndices_perm (nW * nH) RESERVED_HEADER_PIXELS
      (by show 32 ≤ nW * nH; omega)
  have hshlen : (getShuffledIndices (nW * nH) RESERVED_HEADER_PIXELS).length =
      nW * nH - 32 := by
    rw [hperm.length_eq, List.length_range']
  have hshnd : (getShuffledIndices (nW * nH) RESERVED_HEADER_PIXELS).Nodup :=
    hperm.symm.nodup (List.nodup_range' _ _)
  have hshmem : ∀ i ∈ getShuffledIndices (nW * nH) RESERVED_HEADER_PIXELS,
      32 ≤ i ∧ i < nW * nH := by
    intro i hi
    have := List.mem_range'_1.mp (hperm.subset hi)
    omega
  have hcslen : (channelSlots (getShuffledIndices (nW * nH)
      RESERVED_HEADER_PIXELS)).length = 3 * (nW * nH - 32) := by
    rw [channelSlots_length, hshlen]
  have hnCh : ceilDiv (8 * payload.length) bpc ≤ 3 * (nW * nH - 32) := by
    rw [ceilDiv_le_iff (by omega)]
    have h3 : bpc * (3 * (nW * nH - 32)) = 3 * bpc * (nW * nH - 32) := by ring
    rw [h3]
    exact hcap
  have hslen : (stegoSlots nW nH payload.length bpc).length =
      ceilDiv (8 * payload.length) bpc := by
    simp only [stegoSlots]
    rw [List.length_take, hcslen]
    omega
  have hsmem : ∀ q, q < ceilDiv (8 * payload.length) bpc →
      128 ≤ (stegoSlots nW nH payload.length bpc).getD q 0 ∧
      (stegoSlots nW nH payload.length bpc).getD q 0 < 4 * (nW * nH) := by
    intro q hq
    have hmem : (stegoSlots nW nH payload.length bpc).getD q 0 ∈
        stegoSlots nW nH payload.length bpc := getD_mem (by rw [hslen]; omega)
    have hmem' : (stegoSlots nW nH payload.length bpc).getD q 0 ∈
        channelSlots (getShuffledIndices (nW * nH) RESERVED_HEADER_PIXELS) :=
      (List.take_sublist _ _).subset hmem
    obtain ⟨idx, hidx, hcase⟩ := mem_channelSlots.mp hmem'
    have := hshmem idx hidx
    rcases hcase with h | h | h <;> omega
  have hsnd : (stegoSlots nW nH payload.length bpc).Nodup :=
    List.Nodup.sublist (List.take_sublist _ _)
      (channelSlots_nodup _ hshnd)
  have hbaselen : (stegoBase cover payload.length bpc).length = 4 * (nW * nH) := by
    show (writeHeader (forceAlpha cover) (headerBitsList payload.length bpc)).length =
      4 * (nW * nH)
    rw [writeHeader_as_fold,
      foldl_set_length headerPos
        (fun k old => old / 2 * 2 + (headerBitsList payload.length bpc).getD k 0) _ _,
      forceAlpha_length, hcov]
  have hbase_hdr : ∀ k, k < 72 →
      (stegoBase cover payload.length bpc).getD (headerPos k) 0 =
      (forceAlpha cover).getD (headerPos k) 0 / 2 * 2 +
        (headerBitsList payload.length bpc).getD k 0 := by
    intro k hk
    show (writeHeader (forceAlpha cover) (headerBitsList payload.length bpc)).getD
      (headerPos k) 0 = _
    rw [writeHeader_as_fold]
    exact foldl_set_getD_mem headerPos
      (fun k old => old / 2 * 2 + (headerBitsList payload.length bpc).getD k 0)
      (List.range (headerBitsList payload.length bpc).length) (forceAlpha cover)
      (by rw [headerBitsList_length]; decide)
      k (by rw [headerBitsList_length]; exact List.mem_range.mpr hk)
      (by
        rw [forceAlpha_length, hcov]
        have := headerPos_lt k hk
        omega)
  have hbase_rest : ∀ p, 128 ≤ p →
      (stegoBase cover payload.length bpc).getD p 0 =
        (forceAlpha cover).getD p 0 := by
    intro p hp
    show (writeHeader (forceAlpha cover) (headerBitsList payload.length bpc)).getD
      p 0 = _
    rw [writeHeader_as_fold]
    exact foldl_set_getD_notin headerPos
      (fun k old => old / 2 * 2 + (headerBitsList payload.length bpc).getD k 0)
      (List.range (headerBitsList payload.length bpc).length) (forceAlpha cover) p
      (fun k hk => by
        have hk72 : k < 72 := by
          have hmem := List.mem_range.mp hk
          rwa [headerBitsList_length] at hmem
        have := headerPos_lt k hk72
        omega)
  have hfinal_low : ∀ p, p < 128 →
      (stegoEmbed cover nW nH payload bpc).getD p 0 =
        (stegoBase cover payload.length bpc).getD p 0 := by
    intro p hp
    rw [stegoEmbed_as_fold]
    exact foldl_set_getD_notin (fun q => (stegoSlots nW nH payload.length bpc).getD q 0)
      (fun q old => opapWrite old (chunkAt (payloadBitsOf payload) bpc q) bpc)
      (List.range (stegoSlots nW nH payload.length bpc).length)
      (stegoBase cover payload.length bpc) p
      (fun q hq => by
        show (stegoSlots nW nH payload.length bpc).getD q 0 ≠ p
        have hq' : q < ceilDiv (8 * payload.length) bpc := by
          have hmem := List.mem_range.mp hq
          rwa [hslen] at hmem
        have := (hsmem q hq').1
        omega)
  have hfinal_slot : ∀ q, q < ceilDiv (8 * payload.length) bpc →
      (stegoEmbed cover nW nH payload bpc).getD
        ((stegoSlots nW nH payload.length bpc).getD q 0) 0 =
      opapWrite ((stegoBase cover payload.length bpc).getD
          ((stegoSlots nW nH payload.length bpc).getD q 0) 0)
        (chunkAt (payloadBitsOf payload) bpc q) bpc := by
    intro q hq
    rw [stegoEmbed_as_fold]
    exact foldl_set_getD_mem (fun q => (stegoSlots nW nH payload.length bpc).getD q 0)
      (fun q old => opapWrite old (chunkAt (payloadBitsOf payload) bpc q) bpc)
      (List.range (stegoSlots nW nH payload.length bpc).length)
      (stegoBase cover payload.length bpc)
      (by rw [map_getD_range]; exact hsnd)
      q (List.mem_range.mpr (by rw [hslen]; omega))
      (by rw [hbaselen]; exact (hsmem q hq).2)
  constructor
  · intro k hk
    simp only [lsbBit, pxAt]
    rw [show 4 * (k / 3) + k % 3 = headerPos k from rfl,
      hfinal_low _ (headerPos_lt k hk), hbase_hdr k hk, Nat.and_one_is_mod]
    have hblt : (headerBitsList payload.length bpc).getD k 0 < 2 :=
      headerBitsList_lt_two payload.length bpc _
        (getD_mem (by rw [headerBitsList_length]; omega))
    omega
  · intro q hq
    simp only [pxAt]
    rw [hfinal_slot q hq]
    have hbv : (stegoBase cover payload.length bpc).getD
        ((stegoSlots nW nH payload.length bpc).getD q 0) 0 ≤ 255 := by
      rw [hbase_rest _ (hsmem q hq).1]
      have hlt : (stegoSlots nW nH payload.length bpc).getD q 0 < cover.length := by
        rw [hcov]
        exact (hsmem q hq).2
      rw [forceAlpha_getD cover _ hlt]
      split_ifs with h
      · omega
      · exact hcv _ (getD_mem hlt)
    have hchunk : chunkAt (payloadBitsOf payload) bpc q < 2 ^ bpc := by
      rw [chunkAt]
      calc bitsToNat (((payloadBitsOf payload).drop (q * bpc)).take bpc)
          < 2 ^ (((payloadBitsOf payload).drop (q * bpc)).take bpc).length :=
            bitsToNat_lt _ (fun b hb => payloadBitsOf_lt_two payload b
              ((List.drop_sublist _ _).subset ((List.take_sublist _ _).subset hb)))
        _ ≤ 2 ^ bpc :=
            Nat.pow_le_pow_right (by omega) (by rw [List.length_take]; omega)
    exact (opapWrite_spec _ _ bpc hbv hb1 hb7 hchunk).1

/-- Reading the linear LSB stream of a buffer whose first 72 LSBs hold the
stego header recovers the magic, the payload length modulo `2^32`, and the
BPC byte. -/
theorem header_readback (px : List Nat) (L bpc : Nat) (hbpc : bpc < 2 ^ 8)
    (hbit : ∀ k, k < 72 → lsbBit px k = (headerBitsList L bpc).getD k 0) :
    ([lsbByte px 0, lsbByte px 8, lsbByte px 16, lsbByte px 24] = MAGIC_SNIH) ∧
    readU32le [lsbByte px 32, lsbByte px 40, lsbByte px 48, lsbByte px 56] =
      L % 4294967296 ∧
    lsbByte px 64 = bpc := by
  have hA : (MAGIC_SNIH.flatMap (natBits 8)).length = 32 := by decide
  have hbyte : ∀ s, s + 8 ≤ 72 →
      lsbByte px s = bitsToNat ((List.range 8).map fun b =>
        (headerBitsList L bpc).getD (s + b) 0) := by
    intro s hs
    simp only [lsbByte]
    congr 1
    apply List.map_congr_left
    intro b hb
    exact hbit (s + b) (by have := List.mem_range.mp hb; omega)
  have hpart1 : ∀ k, k < 32 → (headerBitsList L bpc).getD k 0 =
      (MAGIC_SNIH.flatMap (natBits 8)).getD k 0 := by
    intro k hk
    rw [headerBitsList,
      List.getD_append _ _ _ _ (by rw [List.length_append, hA, natBits_length]; omega),
      List.getD_append _ _ _ _ (by rw [hA]; omega)]
  have hmagicbyte : ∀ i, i < 4 → lsbByte px (8 * i) = MAGIC_SNIH.getD i 0 := by
    intro i hi
    rw [hbyte (8 * i) (by omega)]
    have hmap : ((List.range 8).map fun b =>
        (headerBitsList L bpc).getD (8 * i + b) 0) =
        natBits 8 (MAGIC_SNIH.getD i 0) := by
      rw [natBits]
      apply List.map_congr_left
      intro b hb
      have hblt : b < 8 := List.mem_range.mp hb
      rw [hpart1 (8 * i + b) (by omega),
        getD_flatMap_const_len (natBits 8) 8 (fun x => natBits_length 8 x)
          MAGIC_SNIH i b (by show i < 4; omega) hblt,
        natBits_getD 8 _ b hblt]
    rw [hmap, bitsToNat_natBits]
    interval_cases i <;> decide
  have hlenbit : ∀ k, k < 32 →
      (headerBitsList L bpc).getD (32 + k) 0 = (L >>> k) &&& 1 := by
    intro k hk
    rw [headerBitsList,
      List.getD_append _ _ _ _ (by rw [List.length_append, hA, natBits_length]; omega),
      List.getD_append_right _ _ _ _ (by rw [hA]; omega),
      show 32 + k - (MAGIC_SNIH.flatMap (natBits 8)).length = k by rw [hA]; omega,
      natBits_getD 32 L k hk]
  have hlb : ∀ j, j < 4 →
      lsbByte px (32 + 8 * j) = (L >>> (8 * j)) % 2 ^ 8 := by
    intro j hj
    rw [hbyte (32 + 8 * j) (by omega)]
    have hmap : ((List.range 8).map fun b =>
        (headerBitsList L bpc).getD (32 + 8 * j + b) 0) =
        natBits 8 (L >>> (8 * j)) := by
      rw [natBits]
      apply List.map_congr_left
      intro b hb
      have hblt : b < 8 := List.mem_range.mp hb
      rw [show 32 + 8 * j + b = 32 + (8 * j + b) by omega,
        hlenbit (8 * j + b) (by omega), Nat.shiftRight_add]
    rw [hmap, bitsToNat_natBits]
  have hbpcbit : ∀ b, b < 8 →
      (headerBitsList L bpc).getD (64 + b) 0 = (bpc >>> b) &&& 1 := by
    intro b hb
    rw [headerBitsList,
      List.getD_append_right _ _ _ _
        (by rw [List.length_append, hA, natBits_length]; omega),
      show 64 + b - (MAGIC_SNIH.flatMap (natBits 8) ++ natBits 32 L).length = b by
        rw [List.length_append, hA, natBits_length]; omega,
      natBits_getD 8 bpc b hb]
  refine ⟨?_, ?_, ?_⟩
  · have e0 : lsbByte px 0 = 83 := by simpa [MAGIC_SNIH] using hmagicbyte 0 (by omega)
    have e1 : lsbByte px 8 = 78 := by simpa [MAGIC_SNIH] using hmagicbyte 1 (by omega)
    have e2 : lsbByte px 16 = 73 := by simpa [MAGIC_SNIH] using hmagicbyte 2 (by omega)
    have e3 : lsbByte px 24 = 72 := by simpa [MAGIC_SNIH] using hmagicbyte 3 (by omega)
    rw [e0, e1, e2, e3]
    rfl
  · have l0 : lsbByte px 32 = L % 2 ^ 8 := by simpa using hlb 0 (by omega)
    have l1 : lsbByte px 40 = (L >>> 8) % 2 ^ 8 := by simpa using hlb 1 (by omega)
    have l2 : lsbByte px 48 = (L >>> 16) % 2 ^ 8 := by simpa using hlb 2 (by omega)
    have l3 : lsbByte px 56 = (L >>> 24) % 2 ^ 8 := by simpa using hlb 3 (by omega)
    show lsbByte px 32 + 256 * lsbByte px 40 + 65536 * lsbByte px 48 +
      16777216 * lsbByte px 56 = L % 4294967296
    rw [l0, l1, l2, l3, Nat.shiftRight_eq_div_pow, Nat.shiftRight_eq_div_pow,
      Nat.shiftRight_eq_div_pow]
    have h28 : (2 : Nat) ^ 8 = 256 := by norm_num
    have h216 : (2 : Nat) ^ 16 = 65536 := by norm_num
    have h224 : (2 : Nat) ^ 24 = 16777216 := by norm_num
    rw [h28, h216, h224]
    omega
  · rw [hbyte 64 (by omega)]
    have hmap : ((List.range 8).map fun b =>
        (headerBitsList L bpc).getD (64 + b) 0) = natBits 8 bpc := by
      rw [natBits]
      apply List.map_congr_left
      intro b hb
      exact hbpcbit b (List.mem_range.mp hb)
    rw [hmap, bitsToNat_natBits, Nat.mod_eq_of_lt hbpc]

/-- Extracting `L'` bytes from a buffer whose written shuffled channels carry
the payload bit chunks recovers the first `L'` payload bytes. -/
theorem extract_of_embedded (px payload : List Nat) (nW nH bpc lr : Nat)
    (hb1 : 1 ≤ bpc)
    (hpb : ∀ b ∈ payload, b < 256)
    (hN : 32 < nW * nH)
    (hcap : 8 * payload.length ≤ 3 * bpc * (nW * nH - 32))
    (hlr : lr ≤ payload.length)
    (hmod : ∀ q, q < ceilDiv (8 * payload.length) bpc →
      pxAt px ((stegoSlots nW nH payload.length bpc).getD q 0) % 2 ^ bpc =
        chunkAt (payloadBitsOf payload) bpc q) :
    stegoExtract px nW nH lr bpc = .ok (payload.take lr) := by
  have hR : RESERVED_HEADER_PIXELS = 32 := rfl
  have hshlen : (getShuffledIndices (nW * nH) RESERVED_HEADER_PIXELS).length =
      nW * nH - 32 := by
    rw [(getShuffledIndices_perm (nW * nH) RESERVED_HEADER_PIXELS
      (by show 32 ≤ nW * nH; omega)).length_eq, List.length_range']
    rfl
  have hcslen : (channelSlots (getShuffledIndices (nW * nH)
      RESERVED_HEADER_PIXELS)).length = 3 * (nW * nH - 32) := by
    rw [channelSlots_length, hshlen]
  have hnCh : ceilDiv (8 * payload.length) bpc ≤ 3 * (nW * nH - 32) := by
    rw [ceilDiv_le_iff (by omega)]
    have h3 : bpc * (3 * (nW * nH - 32)) = 3 * bpc * (nW * nH - 32) := by ring
    rw [h3]
    exact hcap
  have hslen : (stegoSlots nW nH payload.length bpc).length =
      ceilDiv (8 * payload.length) bpc := by
    simp only [stegoSlots]
    rw [List.length_take, hcslen]
    omega
  have hpblen : (payloadBitsOf payload).length = 8 * payload.length :=
    payloadBitsOf_length payload
  have hsplit : channelSlots (getShuffledIndices (nW * nH) RESERVED_HEADER_PIXELS) =
      stegoSlots nW nH payload.length bpc ++
      (channelSlots (getShuffledIndices (nW * nH) RESERVED_HEADER_PIXELS)).drop
        (ceilDiv (8 * payload.length) bpc) :=
    (List.take_append_drop _ _).symm
  have hbits_app : extractBits px (channelSlots (getShuffledIndices (nW * nH)
      RESERVED_HEADER_PIXELS)) bpc =
      extractBits px (stegoSlots nW nH payload.length bpc) bpc ++
      extractBits px ((channelSlots (getShuffledIndices (nW * nH)
        RESERVED_HEADER_PIXELS)).drop (ceilDiv (8 * payload.length) bpc)) bpc := by
    conv_lhs => rw [hsplit]
    simp only [extractBits, List.flatMap_append]
  have hwr : extractBits px (stegoSlots nW nH payload.length bpc) bpc =
      (List.range (ceilDiv (8 * payload.length) bpc)).flatMap
        (fun q => natBits bpc (chunkAt (payloadBitsOf payload) bpc q)) := by
    rw [extractBits_eq_natBits]
    have h := flatMap_eq_range (fun s => natBits bpc (pxAt px s))
      (stegoSlots nW nH payload.length bpc)
      (fun q => natBits bpc (chunkAt (payloadBitsOf payload) bpc q))
      (fun q hq => by
        show natBits bpc (pxAt px ((stegoSlots nW nH payload.length bpc).getD q 0)) =
          natBits bpc (chunkAt (payloadBitsOf payload) bpc q)
        rw [← natBits_mod bpc
            (pxAt px ((stegoSlots nW nH payload.length bpc).getD q 0)),
          hmod q (by rwa [hslen] at hq)])
    rwa [hslen] at h
  have hchunks := chunks_flatten bpc (payloadBitsOf payload)
    (payloadBitsOf_lt_two payload) (ceilDiv (8 * payload.length) bpc) 0
  have hbitsS : extractBits px (stegoSlots nW nH payload.length bpc) bpc =
      (payloadBitsOf payload).take (ceilDiv (8 * payload.length) bpc * bpc) ++
        List.replicate (ceilDiv (8 * payload.length) bpc * bpc -
          (payloadBitsOf payload).length) 0 := by
    rw [hwr, List.range_eq_range', hchunks]
    simp
  have hSlen : (extractBits px (stegoSlots nW nH payload.length bpc) bpc).length =
      ceilDiv (8 * payload.length) bpc * bpc := by
    rw [extractBits_length, hslen]
  have h8lr : 8 * lr ≤ ceilDiv (8 * payload.length) bpc * bpc := by
    calc 8 * lr ≤ 8 * payload.length := by omega
      _ ≤ bpc * ceilDiv (8 * payload.length) bpc := le_mul_ceilDiv (by omega)
      _ = ceilDiv (8 * payload.length) bpc * bpc := Nat.mul_comm _ _
  have htake : (extractBits px (channelSlots (getShuffledIndices (nW * nH)
      RESERVED_HEADER_PIXELS)) bpc).take (8 * lr) =
      (payloadBitsOf payload).take (8 * lr) := by
    rw [hbits_app, List.take_append_of_le_length (by rw [hSlen]; omega),
      hbitsS, List.take_append_of_le_length
        (by rw [List.length_take]; omega),
      List.take_take]
    congr 1
    omega
  have hFlen : (extractBits px (channelSlots (getShuffledIndices (nW * nH)
      RESERVED_HEADER_PIXELS)) bpc).length = 3 * (nW * nH - 32) * bpc := by
    rw [extractBits_length, hcslen]
  have hb3 : 3 * (nW * nH - 32) * bpc = 3 * bpc * (nW * nH - 32) := by ring
  have hmin : min lr ((extractBits px (channelSlots (getShuffledIndices (nW * nH)
      RESERVED_HEADER_PIXELS)) bpc).length / 8) = lr := by
    rw [hFlen]
    have hle : lr * 8 ≤ 3 * (nW * nH - 32) * bpc := by
      rw [hb3, Nat.mul_comm lr 8]
      omega
    have h2 := (Nat.le_div_iff_mul_le (by omega : 0 < 8)).mpr hle
    omega
  rw [stegoExtract_eq, if_neg (by omega), stegoExtractBytes_eq, hmin,
    Nat.sub_self, List.replicate_zero, List.append_nil]
  exact congrArg Except.ok (bytesFromBits_payload lr payload _ hpb hlr htake)

/-- The stego round trip on the already-resampled cover: decoding an
embedded buffer parses the first `payload.length % 2^32` payload bytes (the
u32 length field wraps for larger payloads). -/
theorem stego_decode_embed (dec : List Nat → Option (List Nat))
    (cover : List Nat) (nW nH : Nat) (payload : List Nat) (bpc : Nat)
    (hcov : cover.length = 4 * (nW * nH))
    (hcv : ∀ v ∈ cover, v ≤ 255)
    (hb1 : 1 ≤ bpc) (hb7 : bpc ≤ 7)
    (hpb : ∀ b ∈ payload, b < 256)
    (hN : 32 < nW * nH)
    (hcap : 8 * payload.length ≤ 3 * bpc * (nW * nH - 32)) :
    decodeImageToFile dec (stegoEmbed cover nW nH payload bpc) nW nH =
      parsePayload dec (payload.take (payload.length % 4294967296)) := by
  obtain ⟨hhdr, hmod⟩ :=
    stegoEmbed_getD cover nW nH payload bpc hcov hcv hb1 hb7 hN hcap
  obtain ⟨hmagic, hlen, hbpc⟩ := header_readback
    (stegoEmbed cover nW nH payload bpc) payload.length bpc
    (by have h : (2 : Nat) ^ 8 = 256 := by norm_num
        omega)
    hhdr
  have hprobe := snih_probe_ne (stegoEmbed cover nW nH payload bpc) hmagic
  rw [decodeImageToFile_eq, if_neg hprobe, if_pos hmagic, decodeStegoImage_eq,
    hbpc, hlen]
  rw [if_neg (by omega)]
  have hcapa : payload.length % 4294967296 ≤ nW * nH * 3 * bpc := by
    calc payload.length % 4294967296 ≤ payload.length := Nat.mod_le _ _
      _ ≤ 8 * payload.length := by omega
      _ ≤ 3 * bpc * (nW * nH - 32) := hcap
      _ ≤ 3 * bpc * (nW * nH) := Nat.mul_le_mul_left _ (by omega)
      _ = nW * nH * 3 * bpc := by ring
  rw [if_neg (Nat.not_lt.mpr hcapa)]
  have hext := extract_of_embedded (stegoEmbed cover nW nH payload bpc) payload
    nW nH bpc (payload.length % 4294967296) hb1 hpb hN hcap (Nat.mod_le _ _) hmod
  rw [hext]

/-- Claim C1 (amended): for every data/mime/name (mime and name at most 255
bytes), every cover dimensions `W, H ≥ 8`, every `targetBPC ∈ [1,7]`, and
every resampled cover buffer at the planner's output dimensions, decoding
the stego-embedded buffer returns exactly the original `(data, mime, name)`
— provided the framed payload is shorter than `2^32` bytes (the u32 length
field of the header otherwise wraps). -/
theorem stego_roundtrip (dec : List Nat → Option (List Nat))
    (data mime name cover : List Nat) (W H targetBPC : Nat)
    (hdb : ∀ b ∈ data, b < 256) (hmb : ∀ b ∈ mime, b < 256)
    (hnb : ∀ b ∈ name, b < 256)
    (hm : mime.length ≤ 255) (hn : name.length ≤ 255)
    (hW : 8 ≤ W) (hH : 8 ≤ H) (hb1 : 1 ≤ targetBPC) (hb7 : targetBPC ≤ 7)
    (hsmall : (createPayload data mime name).length < 4294967296)
    (hcov : cover.length = 4 *
      ((plannerNewDims (8 * (createPayload data mime name).length) W H targetBPC).1 *
       (plannerNewDims (8 * (createPayload data mime name).length) W H targetBPC).2))
    (hcv : ∀ v ∈ cover, v ≤ 255) :
    decodeImageToFile dec
      (stegoEmbed cover
        (plannerNewDims (8 * (createPayload data mime name).length) W H targetBPC).1
        (plannerNewDims (8 * (createPayload data mime name).length) W H targetBPC).2
        (createPayload data mime name) (finalBPC targetBPC))
      (plannerNewDims (8 * (createPayload data mime name).length) W H targetBPC).1
      (plannerNewDims (8 * (createPayload data mime name).length) W H targetBPC).2 =
    .ok ⟨data, mime, name⟩ := by
  simp only [finalBPC]
  have hge := plannerNewDims_ge (8 * (createPayload data mime name).length) W H
    targetBPC
  have h64 : 8 * 8 ≤ W * H := Nat.mul_le_mul hW hH
  have hWH : W * H ≤
      (plannerNewDims (8 * (createPayload data mime name).length) W H targetBPC).1 *
      (plannerNewDims (8 * (createPayload data mime name).length) W H targetBPC).2 :=
    Nat.mul_le_mul hge.1 hge.2
  have hN : 32 <
      (plannerNewDims (8 * (createPayload data mime name).length) W H targetBPC).1 *
      (plannerNewDims (8 * (createPayload data mime name).length) W H targetBPC).2 := by
    omega
  have hcore := planner_capacity_core (8 * (createPayload data mime name).length)
    W H targetBPC (by omega) hb1 hb7
  have h1 := (ceilDiv_le_iff (by omega :
    0 < ((plannerNewDims (8 * (createPayload data mime name).length) W H targetBPC).1 *
      (plannerNewDims (8 * (createPayload data mime name).length) W H targetBPC).2 -
      32) * 3)).mp hcore
  have hbr : ∀ A : Nat, A * 3 * targetBPC = 3 * targetBPC * A := fun A => by ring
  have hcap : 8 * (createPayload data mime name).length ≤
      3 * targetBPC *
      ((plannerNewDims (8 * (createPayload data mime name).length) W H targetBPC).1 *
       (plannerNewDims (8 * (createPayload data mime name).length) W H targetBPC).2 -
       32) := by
    rw [← hbr ((plannerNewDims (8 * (createPayload data mime name).length) W H
      targetBPC).1 *
      (plannerNewDims (8 * (createPayload data mime name).length) W H targetBPC).2 -
      32)]
    exact h1
  rw [stego_decode_embed dec cover _ _ (createPayload data mime name) targetBPC
    hcov hcv hb1 hb7 (createPayload_lt data mime name hdb hmb hnb) hN hcap,
    Nat.mod_eq_of_lt hsmall, List.take_length]
  have hdlt : data.length < 4294967296 := by
    have := createPayload_length data mime name
    omega
  have hp := parsePayload_createPayload dec data mime name 0 hm hn hdlt
  simpa using hp

set_option maxRecDepth 100000 in
/-- Witness for C1 (amended): data `[9,8,7]`, mime `[97]`, name `[98]`,
`W = H = 8`, `targetBPC = 7`, an all-zero 8×8 cover (the planner keeps the
8×8 dimensions for this payload). -/
theorem stego_roundtrip_witness :
    decodeImageToFile (fun _ => none)
      (stegoEmbed (List.replicate 256 0)
        (plannerNewDims (8 * (createPayload [9, 8, 7] [97] [98]).length) 8 8 7).1
        (plannerNewDims (8 * (createPayload [9, 8, 7] [97] [98]).length) 8 8 7).2
        (createPayload [9, 8, 7] [97] [98]) (finalBPC 7))
      (plannerNewDims (8 * (createPayload [9, 8, 7] [97] [98]).length) 8 8 7).1
      (plannerNewDims (8 * (createPayload [9, 8, 7] [97] [98]).length) 8 8 7).2 =
    .ok ⟨[9, 8, 7], [97], [98]⟩ :=
  stego_roundtrip (fun _ => none) [9, 8, 7] [97] [98] (List.replicate 256 0) 8 8 7
    (by decide) (by decide) (by decide) (by decide) (by decide)
    (by decide) (by decide) (by decide) (by decide) (by decide)
    (by decide)
    (by
      intro v hv
      have := List.eq_of_mem_replicate hv
      omega)

set_option maxRecDepth 100000 in
set_option maxHeartbeats 2000000 in
/-- Counterexample to C1 as stated: with a `2^32`-byte data buffer, mime
`"audio/mpeg"`, name `"a.mp3"`, `W = H = 8`, `targetBPC = 7` and an all-zero
resampled cover at the planner's dimensions, the u32 length field wraps to
`25`, the decoder extracts only the 25 header-and-metadata bytes, and decode
returns `ok ⟨[], mime, name⟩` — not the original data. -/
theorem stego_c1_counterexample :
    decodeImageToFile (fun _ => none)
      (stegoEmbed
        (List.replicate (4 *
          ((plannerNewDims (8 * (createPayload (List.replicate 4294967296 0)
              mimeAudioMpeg nameAmp3).length) 8 8 7).1 *
           (plannerNewDims (8 * (createPayload (List.replicate 4294967296 0)
              mimeAudioMpeg nameAmp3).length) 8 8 7).2)) 0)
        (plannerNewDims (8 * (createPayload (List.replicate 4294967296 0)
            mimeAudioMpeg nameAmp3).length) 8 8 7).1
        (plannerNewDims (8 * (createPayload (List.replicate 4294967296 0)
            mimeAudioMpeg nameAmp3).length) 8 8 7).2
        (createPayload (List.replicate 4294967296 0) mimeAudioMpeg nameAmp3)
        (finalBPC 7))
      (plannerNewDims (8 * (createPayload (List.replicate 4294967296 0)
          mimeAudioMpeg nameAmp3).length) 8 8 7).1
      (plannerNewDims (8 * (createPayload (List.replicate 4294967296 0)
          mimeAudioMpeg nameAmp3).length) 8 8 7).2 ≠
    .ok ⟨List.replicate 4294967296 0, mimeAudioMpeg, nameAmp3⟩ := by
  simp only [finalBPC]
  have hL : (createPayload (List.replicate 4294967296 0) mimeAudioMpeg
      nameAmp3).length = 4294967321 := by
    rw [createPayload_length, List.length_replicate]
    simp [mimeAudioMpeg, nameAmp3]
  have hge := plannerNewDims_ge (8 * (createPayload (List.replicate 4294967296 0)
    mimeAudioMpeg nameAmp3).length) 8 8 7
  have h64 : 8 * 8 ≤
      (plannerNewDims (8 * (createPayload (List.replicate 4294967296 0)
        mimeAudioMpeg nameAmp3).length) 8 8 7).1 *
      (plannerNewDims (8 * (createPayload (List.replicate 4294967296 0)
        mimeAudioMpeg nameAmp3).length) 8 8 7).2 :=
    Nat.mul_le_mul hge.1 hge.2
  have hN : 32 <
      (plannerNewDims (8 * (createPayload (List.replicate 4294967296 0)
        mimeAudioMpeg nameAmp3).length) 8 8 7).1 *
      (plannerNewDims (8 * (createPayload (List.replicate 4294967296 0)
        mimeAudioMpeg nameAmp3).length) 8 8 7).2 := by
    omega
  have hcore := planner_capacity_core (8 * (createPayload
    (List.replicate 4294967296 0) mimeAudioMpeg nameAmp3).length) 8 8 7
    (by norm_num) (by norm_num) (by norm_num)
  have h1 := (ceilDiv_le_iff (by omega :
    0 < ((plannerNewDims (8 * (createPayload (List.replicate 4294967296 0)
        mimeAudioMpeg nameAmp3).length) 8 8 7).1 *
      (plannerNewDims (8 * (createPayload (List.replicate 4294967296 0)
        mimeAudioMpeg nameAmp3).length) 8 8 7).2 - 32) * 3)).mp hcore
  have hcap : 8 * (createPayload (List.replicate 4294967296 0) mimeAudioMpeg
      nameAmp3).length ≤
      3 * 7 *
      ((plannerNewDims (8 * (createPayload (List.replicate 4294967296 0)
          mimeAudioMpeg nameAmp3).length) 8 8 7).1 *
       (plannerNewDims (8 * (createPayload (List.replicate 4294967296 0)
          mimeAudioMpeg nameAmp3).length) 8 8 7).2 - 32) := by
    omega
  have hpay := createPayload_lt (List.replicate 4294967296 0) mimeAudioMpeg
    nameAmp3
    (by
      intro b hb
      have := List.eq_of_mem_replicate hb
      omega)
    (by decide) (by decide)
  have hdec0 := stego_decode_embed (fun _ => none)
    (List.replicate (4 *
      ((plannerNewDims (8 * (createPayload (List.replicate 4294967296 0)
          mimeAudioMpeg nameAmp3).length) 8 8 7).1 *
       (plannerNewDims (8 * (createPayload (List.replicate 4294967296 0)
          mimeAudioMpeg nameAmp3).length) 8 8 7).2)) 0)
    (plannerNewDims (8 * (createPayload (List.replicate 4294967296 0)
        mimeAudioMpeg nameAmp3).length) 8 8 7).1
    (plannerNewDims (8 * (createPayload (List.replicate 4294967296 0)
        mimeAudioMpeg nameAmp3).length) 8 8 7).2
    (createPayload (List.replicate 4294967296 0) mimeAudioMpeg nameAmp3) 7
    (by rw [List.length_replicate])
    (by
      intro v hv
      have := List.eq_of_mem_replicate hv
      omega)
    (by norm_num) (by norm_num) hpay hN hcap
  have hmod25 : (createPayload (List.replicate 4294967296 0) mimeAudioMpeg
      nameAmp3).length % 4294967296 = 25 := by
    rw [hL]
  rw [hmod25] at hdec0
  have htk : (createPayload (List.replicate 4294967296 0) mimeAudioMpeg
      nameAmp3).take 25 =
      [0x53, 0x4E, 0x49, 0x43, 0, 0, 0, 0, 10,
       97, 117, 100, 105, 111, 47, 109, 112, 101, 103, 5,
       97, 46, 109, 112, 51] := by
    have hsp : createPayload (List.replicate 4294967296 0) mimeAudioMpeg nameAmp3 =
        (MAGIC_SNIC ++ u32le (List.replicate 4294967296 (0 : Nat)).length ++
          [mimeAudioMpeg.length % 256] ++ mimeAudioMpeg ++
          [nameAmp3.length % 256] ++ nameAmp3) ++ List.replicate 4294967296 0 :=
      rfl
    rw [hsp, List.take_left' (by rw [List.length_replicate]; decide),
      show (List.replicate 4294967296 (0 : Nat)).length = 4294967296 by
        rw [List.length_replicate]]
    decide
  rw [htk] at hdec0
  have hparse : parsePayload (fun _ : List Nat => none)
      [0x53, 0x4E, 0x49, 0x43, 0, 0, 0, 0, 10,
       97, 117, 100, 105, 111, 47, 109, 112, 101, 103, 5,
       97, 46, 109, 112, 51] = .ok ⟨[], mimeAudioMpeg, nameAmp3⟩ := rfl
  rw [hparse] at hdec0
  rw [hdec0]
  intro hcontra
  injection hcontra with hfile
  injection hfile with hdata hmime hname
  have hlen := congrArg List.length hdata
  rw [List.length_replicate] at hlen
  simp at hlen

end SonicPixelator
